import Mathlib

/-!
Verification of the Solunaris time-bot repository's clock model and RCON
client against its specification.

The repository contains two bot variants:
* `solunaris_time_bot.py` ("TimeBot" below): a minute-by-minute simulation
  loop for the in-game clock, an unvalidated `/settime` command, and a
  minimal RCON client.
* `solunaris_webhook_bot.py` ("WebhookBot" below): a piecewise boundary-jump
  clock (`advance_minutes_piecewise`), a validated `/settime` command, and a
  fuller RCON client with an authentication handshake.

Real-number arithmetic of the Python source (floats) is modelled by exact
rationals `ℚ`; decimal literals of the source are taken at their exact
decimal value.  Python `//` and `%` on integers are floor division and
floor modulus, modelled by `Int.ediv` / `Int.emod` (the divisors are
positive everywhere below, where the two conventions agree).  Python
`int()` on a float truncates toward zero, modelled by `pyInt`.
-/

namespace Solunaris

/-- Python `int(q)`: truncation toward zero. -/
def pyInt (q : ℚ) : ℤ := if 0 ≤ q then ⌊q⌋ else -⌊-q⌋

namespace TimeBot

/-- Constant `DAY_SPM = 4.7666667` from `solunaris_time_bot.py`. -/
def DAY_SPM : ℚ := 47666667 / 10000000

/-- Constant `NIGHT_SPM = 4.045` from `solunaris_time_bot.py`. -/
def NIGHT_SPM : ℚ := 4045 / 1000

/-- Constant `SUNRISE = 5 * 60 + 30`. -/
def SUNRISE : ℤ := 5 * 60 + 30

/-- Constant `SUNSET = 17 * 60 + 30`. -/
def SUNSET : ℤ := 17 * 60 + 30

/-- `is_day(minute_of_day)` from `solunaris_time_bot.py` line 111. -/
def is_day (minute_of_day : ℤ) : Bool :=
  decide (SUNRISE ≤ minute_of_day ∧ minute_of_day < SUNSET)

/-- `spm(minute_of_day)` from `solunaris_time_bot.py` line 114. -/
def spm (minute_of_day : ℤ) : ℚ :=
  if is_day minute_of_day then DAY_SPM else NIGHT_SPM

/-- The mutable loop variables of `calculate_time_snapshot`. -/
structure SimState where
  minute_of_day : ℤ
  day : ℤ
  year : ℤ
deriving DecidableEq, Repr

theorem spm_ge_four (m : ℤ) : (4 : ℚ) ≤ spm m := by
  unfold spm
  split <;> norm_num [DAY_SPM, NIGHT_SPM]

theorem spm_pos (m : ℤ) : (0 : ℚ) < spm m :=
  lt_of_lt_of_le (by norm_num) (spm_ge_four m)

theorem ceil_toNat_lt_of_sub {r c : ℚ} (hr : ¬ r ≤ 0) (hc : 4 ≤ c) :
    (⌈r - c⌉).toNat < (⌈r⌉).toNat := by
  push_neg at hr
  have h1 : (0 : ℤ) < ⌈r⌉ := Int.ceil_pos.mpr hr
  have h2 : ⌈r - c⌉ ≤ ⌈r⌉ - 4 := by
    have : r - c ≤ r - (4 : ℤ) := by push_cast; linarith
    calc ⌈r - c⌉ ≤ ⌈r - ((4 : ℤ) : ℚ)⌉ := Int.ceil_le_ceil (by push_cast; linarith)
    _ = ⌈r⌉ - 4 := Int.ceil_sub_int r 4
  have h3 : ⌈r - c⌉ < ⌈r⌉ := lt_of_le_of_lt h2 (by omega)
  omega

/-- The `while remaining > 0` simulation loop inside
`calculate_time_snapshot` (`solunaris_time_bot.py` lines 133-142):
one in-game minute is consumed per iteration at the day/night rate of the
current minute, with minute-of-day wrap at 1440 and day wrap at 365. -/
def simLoop (remaining : ℚ) (s : SimState) : SimState :=
  if remaining ≤ 0 then s
  else
    let remaining' := remaining - spm s.minute_of_day
    let m' := s.minute_of_day + 1
    if 1440 ≤ m' then
      let d' := s.day + 1
      if 365 < d' then
        simLoop remaining' ⟨0, 1, s.year + 1⟩
      else
        simLoop remaining' ⟨0, d', s.year⟩
    else
      simLoop remaining' ⟨m', s.day, s.year⟩
termination_by (⌈remaining⌉).toNat
decreasing_by
  all_goals exact ceil_toNat_lt_of_sub (by assumption) (spm_ge_four _)

/-- Persisted calibration state of `solunaris_time_bot.py` (`/settime`). -/
structure TimeState where
  epoch : ℚ
  year : ℤ
  day : ℤ
  hour : ℤ
  minute : ℤ
deriving DecidableEq, Repr

/-- Fields of the tuple returned by `calculate_time_snapshot` (the title
string and color are derived from these and are not modelled). -/
structure Snapshot where
  year : ℤ
  day : ℤ
  hour : ℤ
  minute : ℤ
  minute_of_day : ℤ
  isDay : Bool
deriving DecidableEq, Repr

/-- `calculate_time_snapshot` from `solunaris_time_bot.py` lines 117-149.
Returns `none` when no time state is set ("if not state: return None"). -/
def calculate_time_snapshot (state : Option TimeState) (now : ℚ) :
    Option Snapshot :=
  match state with
  | none => none
  | some st =>
    let elapsed := now - st.epoch
    let r := simLoop elapsed ⟨st.hour * 60 + st.minute, st.day, st.year⟩
    some { year := r.year, day := r.day,
           hour := r.minute_of_day / 60,
           minute := r.minute_of_day % 60,
           minute_of_day := r.minute_of_day,
           isDay := is_day r.minute_of_day }

/-- The state change performed by the `/settime` command of
`solunaris_time_bot.py` (lines 421-443): after the role check the new
state is stored unconditionally — no range validation is performed.
The boolean is `true` iff the command reported success. -/
def settime (_state : Option TimeState) (now : ℚ)
    (year day hour minute : ℤ) : Option TimeState × Bool :=
  (some { epoch := now, year := year, day := day,
          hour := hour, minute := minute }, true)

end TimeBot

namespace WebhookBot

/-- Constant `DAY_SECONDS_PER_INGAME_MINUTE = 4.7666667`. -/
def DAY_SECONDS_PER_INGAME_MINUTE : ℚ := 47666667 / 10000000

/-- Constant `NIGHT_SECONDS_PER_INGAME_MINUTE = 4.045`. -/
def NIGHT_SECONDS_PER_INGAME_MINUTE : ℚ := 4045 / 1000

/-- Constant `DAY_START_MIN = 5 * 60 + 30`. -/
def DAY_START_MIN : ℤ := 5 * 60 + 30

/-- Constant `DAY_END_MIN = 17 * 60 + 30`. -/
def DAY_END_MIN : ℤ := 17 * 60 + 30

/-- `is_day(minute_of_day_int)` from `solunaris_webhook_bot.py` line 169. -/
def is_day (minute_of_day_int : ℤ) : Bool :=
  decide (DAY_START_MIN ≤ minute_of_day_int ∧ minute_of_day_int < DAY_END_MIN)

/-- `seconds_per_minute` from `solunaris_webhook_bot.py` line 173. -/
def seconds_per_minute (minute_of_day_int : ℤ) : ℚ :=
  if is_day minute_of_day_int then DAY_SECONDS_PER_INGAME_MINUTE
  else NIGHT_SECONDS_PER_INGAME_MINUTE

theorem seconds_per_minute_pos (m : ℤ) : 0 < seconds_per_minute m := by
  unfold seconds_per_minute
  split <;> norm_num [DAY_SECONDS_PER_INGAME_MINUTE, NIGHT_SECONDS_PER_INGAME_MINUTE]

/-- `next_boundary_total_minutes` from `solunaris_webhook_bot.py`
lines 176-200. -/
def next_boundary_total_minutes (day : ℤ) (minute_of_day_float : ℚ) : ℚ :=
  let mod := pyInt minute_of_day_float % 1440
  let total_now : ℚ := ((day : ℚ) - 1) * 1440 + minute_of_day_float
  if is_day mod then
    let boundary : ℚ := ((day : ℚ) - 1) * 1440 + (DAY_END_MIN : ℚ)
    if boundary ≤ total_now then (day : ℚ) * 1440 + (DAY_END_MIN : ℚ)
    else boundary
  else
    let boundary : ℚ :=
      if mod < DAY_START_MIN then ((day : ℚ) - 1) * 1440 + (DAY_START_MIN : ℚ)
      else (day : ℚ) * 1440 + (DAY_START_MIN : ℚ)
    if boundary ≤ total_now then boundary + 1440 else boundary

/-- The `while minute_float >= 1440.0` normalization loop inside
`advance_minutes_piecewise` (`solunaris_webhook_bot.py` lines 235-237). -/
def normalize (day : ℤ) (minute_float : ℚ) : ℤ × ℚ :=
  if h : 1440 ≤ minute_float then normalize (day + 1) (minute_float - 1440)
  else (day, minute_float)
termination_by (⌈minute_float⌉).toNat
decreasing_by
  have h1 : (1440 : ℤ) ≤ ⌈minute_float⌉ := by
    exact_mod_cast Int.le_ceil_iff.mpr (by push_cast; linarith)
  have h2 : ⌈minute_float - 1440⌉ = ⌈minute_float⌉ - 1440 := by
    have := Int.ceil_sub_int minute_float 1440
    push_cast at this ⊢
    linarith [this]
  omega

/-- The `for _ in range(200000)` loop body of `advance_minutes_piecewise`
(`solunaris_webhook_bot.py` lines 213-237), as a fuel-indexed recursion:
the fuel argument is the number of loop iterations still allowed; the loop
breaks when no elapsed real time remains, otherwise it either jumps exactly
to the next sunrise/sunset boundary or advances fractionally within the
current segment, then renormalizes the minute into `[0, 1440)`. -/
def advLoop : ℕ → ℤ → ℚ → ℚ → ℤ × ℚ × ℚ
  | 0, day, minute_float, remaining => (day, minute_float, remaining)
  | fuel + 1, day, minute_float, remaining =>
    if remaining ≤ 0 then (day, minute_float, remaining)
    else
      let mod := pyInt minute_float % 1440
      let spm := seconds_per_minute mod
      let boundary_total := next_boundary_total_minutes day minute_float
      let current_total : ℚ := ((day : ℚ) - 1) * 1440 + minute_float
      let mins_until_boundary := max 0 (boundary_total - current_total)
      let secs_until_boundary := mins_until_boundary * spm
      if 0 < secs_until_boundary ∧ secs_until_boundary ≤ remaining then
        let n := normalize day (minute_float + mins_until_boundary)
        advLoop fuel n.1 n.2 (remaining - secs_until_boundary)
      else
        let n := normalize day (minute_float + remaining / spm)
        advLoop fuel n.1 n.2 0

/-- `advance_minutes_piecewise` from `solunaris_webhook_bot.py`
lines 202-239. -/
def advance_minutes_piecewise (start_day start_minute_of_day : ℤ)
    (elapsed_real_seconds : ℚ) : ℤ × ℤ :=
  let r := advLoop 200000 start_day (start_minute_of_day : ℚ) elapsed_real_seconds
  (r.1, pyInt r.2.1 % 1440)

/-- `roll_year` from `solunaris_webhook_bot.py` lines 241-246. -/
def roll_year (day year : ℤ) : ℤ × ℤ :=
  if h : 365 < day then roll_year (day - 365) (year + 1) else (day, year)
termination_by day.toNat
decreasing_by
  omega

/-- Persisted calibration state of `solunaris_webhook_bot.py`. -/
structure TimeState where
  real_epoch : ℚ
  year : ℤ
  day : ℤ
  hour : ℤ
  minute : ℤ
deriving DecidableEq, Repr

/-- Fields of the dict returned by `calculate_time` (emoji, color, title
and spm are derived from these and are not modelled). -/
structure TimeInfo where
  day : ℤ
  year : ℤ
  hour : ℤ
  minute : ℤ
  minute_of_day : ℤ
  isDay : Bool
deriving DecidableEq, Repr

/-- `calculate_time` from `solunaris_webhook_bot.py` lines 248-286.
Returns `none` when no time state is set. -/
def calculate_time (state : Option TimeState) (now : ℚ) : Option TimeInfo :=
  match state with
  | none => none
  | some st =>
    let elapsed_real := now - st.real_epoch
    let start_minute := st.hour * 60 + st.minute
    let p := advance_minutes_piecewise st.day start_minute elapsed_real
    let ry := roll_year p.1 st.year
    some { day := ry.1, year := ry.2,
           hour := p.2 / 60,
           minute := p.2 % 60,
           minute_of_day := p.2,
           isDay := is_day p.2 }

/-- The validation and state change performed by the `/settime` command of
`solunaris_webhook_bot.py` (`settime_cmd`, lines 628-659): after the role
check the input is range-checked and rejected without mutating state when
out of range.  The boolean is `true` iff the command reported success. -/
def settime_cmd (state : Option TimeState) (now : ℚ)
    (year day hour minute : ℤ) : Option TimeState × Bool :=
  if year < 1 ∨ day < 1 ∨ 365 < day ∨ hour < 0 ∨ 23 < hour ∨
      minute < 0 ∨ 59 < minute then
    (state, false)
  else
    (some { real_epoch := now, year := year, day := day,
            hour := hour, minute := minute }, true)

end WebhookBot

/-! ### Byte-level helpers modelling the Python runtime

`le32` models `n.to_bytes(4, "little", signed=True)` and
`struct.pack("<i", n)` (both require `-2^31 ≤ n < 2^31` in Python; the
claims below carry that hypothesis where it matters).  `from_bytes4`
models `int.from_bytes(bs, "little", signed=True)` on a 4-byte slice.
`utf8Events` models CPython's incremental UTF-8 decoder: it turns a byte
list into a list of events, `some c` for a decoded code point and `none`
for each maximal invalid subsequence; the `errors="strict"/"replace"/
"ignore"` policies are derived from the event list. -/

/-- Little-endian 4-byte encoding of a signed 32-bit integer. -/
def le32 (n : ℤ) : List ℕ :=
  let u := (n % 4294967296).toNat
  [u % 256, u / 256 % 256, u / 65536 % 256, u / 16777216 % 256]

/-- `int.from_bytes(bs, "little", signed=True)` for a 4-byte slice. -/
def from_bytes4 (bs : List ℕ) : ℤ :=
  let u : ℕ :=
    match bs with
    | [a, b, c, d] => a + 256 * b + 65536 * c + 16777216 * d
    | _ => 0
  if u < 2147483648 then (u : ℤ) else (u : ℤ) - 4294967296

/-- Decoder state for a partially-read UTF-8 sequence: number of
continuation bytes still needed, the accumulated code point, and the
allowed range for the next continuation byte (the first continuation of
E0/ED/F0/F4 sequences is restricted, which rejects overlong forms,
surrogates and values above U+10FFFF exactly as CPython does). -/
structure Utf8Pending where
  need : ℕ
  acc : ℕ
  lo : ℕ
  hi : ℕ
deriving DecidableEq, Repr

/-- Classification of a byte in lead position. -/
inductive LeadClass where
  | ascii (c : ℕ)
  | multi (p : Utf8Pending)
  | invalid
deriving DecidableEq, Repr

/-- Classify a lead byte per the UTF-8 format accepted by CPython. -/
def classifyLead (b : ℕ) : LeadClass :=
  if b < 128 then .ascii b
  else if b < 194 then .invalid
  else if b ≤ 223 then .multi ⟨1, b - 192, 128, 191⟩
  else if b = 224 then .multi ⟨2, 0, 160, 191⟩
  else if b ≤ 236 then .multi ⟨2, b - 224, 128, 191⟩
  else if b = 237 then .multi ⟨2, 13, 128, 159⟩
  else if b ≤ 239 then .multi ⟨2, b - 224, 128, 191⟩
  else if b = 240 then .multi ⟨3, 0, 144, 191⟩
  else if b ≤ 243 then .multi ⟨3, b - 240, 128, 191⟩
  else if b = 244 then .multi ⟨3, 4, 128, 143⟩
  else .invalid

/-- Run the UTF-8 decoder over a byte list: `some c` for each decoded
code point, `none` for each maximal invalid subsequence (an invalid lead
byte, a truncated sequence, or the valid prefix before an out-of-range
continuation byte, after which the offending byte is reconsidered as a
lead — CPython's error-span behaviour). -/
def utf8Events : Option Utf8Pending → List ℕ → List (Option ℕ)
  | none, [] => []
  | some _, [] => [none]
  | none, b :: rest =>
    match classifyLead b with
    | .ascii c => some c :: utf8Events none rest
    | .multi p => utf8Events (some p) rest
    | .invalid => none :: utf8Events none rest
  | some p, b :: rest =>
    if p.lo ≤ b ∧ b ≤ p.hi then
      let acc' := p.acc * 64 + (b - 128)
      if p.need = 1 then some acc' :: utf8Events none rest
      else utf8Events (some ⟨p.need - 1, acc', 128, 191⟩) rest
    else
      none ::
        (match classifyLead b with
         | .ascii c => some c :: utf8Events none rest
         | .multi p' => utf8Events (some p') rest
         | .invalid => none :: utf8Events none rest)

/-- `bs.decode("utf-8", errors="replace")`: each invalid subsequence
becomes U+FFFD (65533). -/
def decodeReplace (bs : List ℕ) : List ℕ :=
  (utf8Events none bs).map (fun e => e.getD 65533)

/-- `bs.decode("utf-8", errors="ignore")`: invalid subsequences are
silently dropped. -/
def decodeIgnore (bs : List ℕ) : List ℕ :=
  (utf8Events none bs).filterMap id

/-- `bs.decode("utf-8")` (strict): `none` models the `UnicodeDecodeError`
raised on the first invalid subsequence. -/
def decodeStrict (bs : List ℕ) : Option (List ℕ) :=
  if none ∈ utf8Events none bs then none
  else some ((utf8Events none bs).filterMap id)

namespace TimeBot

/-- `_rcon_make_packet` from `solunaris_time_bot.py` lines 169-173.
The body is the UTF-8 byte encoding of the Python string argument. -/
def _rcon_make_packet (req_id ptype : ℤ) (body : List ℕ) : List ℕ :=
  let data := body ++ [0]
  let packet := le32 req_id ++ le32 ptype ++ data ++ [0]
  let size : ℤ := packet.length
  le32 size ++ packet

/-- The socket writes performed by `rcon_command` of
`solunaris_time_bot.py` (lines 180-192), given the raw bytes of the
server's reply to the auth packet: the auth packet is always sent; if the
reply is shorter than 12 bytes a `RuntimeError` is raised (second
component `false`), otherwise — with no inspection of the reply's request
id or type — the command packet is also sent (second component `true`). -/
def rcon_command_sends (password command : List ℕ) (auth_reply : List ℕ) :
    List (List ℕ) × Bool :=
  let authPkt := _rcon_make_packet 1 3 password
  if auth_reply.length < 12 then ([authPkt], false)
  else ([authPkt, _rcon_make_packet 2 2 command], true)

/-- The packet-parsing loop of `rcon_command` in `solunaris_time_bot.py`
(lines 211-225), producing the `out` list of decoded body texts (the
final `"".join(out).strip()` is not modelled).  Bodies are decoded with
`errors="ignore"` and empty texts are not appended. -/
def parseLoop (data : List ℕ) : List (List ℕ) :=
  if _h : data.length < 4 then []
  else
    let size := from_bytes4 (data.take 4)
    let rest := data.drop 4
    if size < 10 ∨ (rest.length : ℤ) < size then []
    else
      let pkt := rest.take size.toNat
      let body := (pkt.drop 8).dropLast.dropLast
      let txt := decodeIgnore body
      (if txt ≠ [] then [txt] else []) ++ parseLoop (rest.drop size.toNat)
termination_by data.length
decreasing_by
  simp only [List.length_drop]
  omega

end TimeBot

namespace WebhookBot

/-- Constant `RCON_TYPE_AUTH = 3`. -/
def RCON_TYPE_AUTH : ℤ := 3

/-- Constant `RCON_TYPE_AUTH_RESP = 2`. -/
def RCON_TYPE_AUTH_RESP : ℤ := 2

/-- Constant `RCON_TYPE_EXEC = 2`. -/
def RCON_TYPE_EXEC : ℤ := 2

/-- Constant `RCON_TYPE_RESPONSE = 0`. -/
def RCON_TYPE_RESPONSE : ℤ := 0

/-- `_rcon_packet` from `solunaris_webhook_bot.py` lines 354-358.
The body is the UTF-8 byte encoding of the Python string argument. -/
def _rcon_packet (req_id ptype : ℤ) (body : List ℕ) : List ℕ :=
  let length : ℤ := 4 + 4 + (body.length : ℤ) + 2
  le32 length ++ le32 req_id ++ le32 ptype ++ body ++ [0, 0]

/-- The body decoding performed by `_rcon_recv`
(`solunaris_webhook_bot.py` line 374):
`payload[8:-2].decode("utf-8", errors="replace")`. -/
def rcon_recv_text (body : List ℕ) : List ℕ := decodeReplace body

/-- One framed packet as delivered by `_rcon_recv`: echoed request id,
packet type, and the raw body bytes. -/
structure Packet where
  id : ℤ
  ptype : ℤ
  body : List ℕ
deriving DecidableEq, Repr

/-- Decoded text of a packet body, as `_rcon_recv` returns it. -/
def Packet.text (p : Packet) : List ℕ := rcon_recv_text p.body

/-- Failure modes of `rcon_command` (each is a raised `RuntimeError` or
socket error in the source; all close the connection via `with`). -/
inductive RconOutcome where
  | ok (parts : List (List ℕ))
  | authFailed
  | noAuthResponse
  | readFailed
deriving DecidableEq, Repr

/-- Result of the auth-reading loop. -/
inductive AuthResult where
  | authed (rest : List Packet)
  | authFailed
  | noAuthResponse
  | readFailed
deriving DecidableEq, Repr

/-- The `for _ in range(5)` auth loop of `rcon_command`
(`solunaris_webhook_bot.py` lines 386-395): packets are read until one of
type `AUTH_RESP` arrives; an echoed id of `-1` raises the auth failure;
non-auth packets (e.g. an empty `RESPONSE_VALUE`) are skipped; five
non-auth packets exhaust the loop ("no auth response"); running out of
server data models a failed read. -/
def authLoop : ℕ → List Packet → AuthResult
  | 0, _ => .noAuthResponse
  | _ + 1, [] => .readFailed
  | fuel + 1, p :: rest =>
    if p.ptype = RCON_TYPE_AUTH_RESP then
      if p.id = -1 then .authFailed else .authed rest
    else authLoop fuel rest

/-- The `for _ in range(10)` response loop of `rcon_command`
(`solunaris_webhook_bot.py` lines 402-412): packets whose id differs from
the outstanding request id are discarded; response/exec-typed bodies are
accumulated; an empty body ends the read. -/
def respLoop : ℕ → ℤ → List Packet → List (List ℕ) → RconOutcome
  | 0, _, _, parts => .ok parts
  | _ + 1, _, [], _ => .readFailed
  | fuel + 1, rid2, p :: rest, parts =>
    if p.id ≠ rid2 then respLoop fuel rid2 rest parts
    else if p.ptype = RCON_TYPE_RESPONSE ∨ p.ptype = RCON_TYPE_EXEC then
      let parts' := if p.text ≠ [] then parts ++ [p.text] else parts
      if p.text.length = 0 then .ok parts'
      else respLoop fuel rid2 rest parts'
    else respLoop fuel rid2 rest parts

/-- Observable behaviour of one `rcon_command` call: the packets written
to the socket, in order, and the outcome. -/
structure RconResult where
  sent : List (List ℕ)
  outcome : RconOutcome
deriving DecidableEq, Repr

/-- `rcon_command` from `solunaris_webhook_bot.py` lines 377-413, over an
abstract incoming packet stream: the auth packet (id 1234) is written,
the auth loop runs, and only on successful authentication is the exec
packet (id 5678) written and the response loop run.  The `with socket`
block closes the connection on every path. -/
def rcon_command (password command : List ℕ) (incoming : List Packet) :
    RconResult :=
  let authPkt := _rcon_packet 1234 RCON_TYPE_AUTH password
  match authLoop 5 incoming with
  | .authFailed => ⟨[authPkt], .authFailed⟩
  | .noAuthResponse => ⟨[authPkt], .noAuthResponse⟩
  | .readFailed => ⟨[authPkt], .readFailed⟩
  | .authed rest =>
    let execPkt := _rcon_packet 5678 RCON_TYPE_EXEC command
    ⟨[authPkt, execPkt], respLoop 10 5678 rest []⟩

end WebhookBot

/-! ### Verification infrastructure

Abbreviations for recurring subterms of the loops, validity predicates for
calibration state, and the absolute in-game minute count derived from a
clock state.  These are not part of the embedding; they only name values
the embedded code already computes. -/

namespace TimeBot

/-- A calibration state within the documented ranges (`dayOfYear ∈ [1,365]`,
`hour ∈ [0,23]`, `minute ∈ [0,59]`, `year ≥ 1`), expressed on the loop
state of `calculate_time_snapshot`. -/
def ValidSim (s : SimState) : Prop :=
  0 ≤ s.minute_of_day ∧ s.minute_of_day < 1440 ∧
    1 ≤ s.day ∧ s.day ≤ 365 ∧ 1 ≤ s.year

/-- Absolute in-game minute index of a simulation state: year, day-of-year
and minute-of-day combined into a single total-minute count. -/
def totalMin (s : SimState) : ℤ :=
  ((s.year - 1) * 365 + (s.day - 1)) * 1440 + s.minute_of_day

/-- A calibration record with in-range fields. -/
def ValidState (st : TimeState) : Prop :=
  1 ≤ st.year ∧ 1 ≤ st.day ∧ st.day ≤ 365 ∧
    0 ≤ st.hour ∧ st.hour ≤ 23 ∧ 0 ≤ st.minute ∧ st.minute ≤ 59

/-- Absolute in-game minute index of a snapshot. -/
def totalSnap (t : Snapshot) : ℤ :=
  ((t.year - 1) * 365 + (t.day - 1)) * 1440 + t.hour * 60 + t.minute

end TimeBot

namespace WebhookBot

/-- The `mins_until_boundary` value of one `advance_minutes_piecewise`
iteration. -/
def minsUB (day : ℤ) (mf : ℚ) : ℚ :=
  max 0 (next_boundary_total_minutes day mf - (((day : ℚ) - 1) * 1440 + mf))

/-- The `spm` value of one `advance_minutes_piecewise` iteration. -/
def spmAt (mf : ℚ) : ℚ := seconds_per_minute (pyInt mf % 1440)

/-- The `secs_until_boundary` value of one `advance_minutes_piecewise`
iteration. -/
def secsUB (day : ℤ) (mf : ℚ) : ℚ := minsUB day mf * spmAt mf

/-- Total in-game minutes (day and fractional minute combined) of an
`advLoop` state. -/
def totalQ (t : ℤ × ℚ × ℚ) : ℚ := ((t.1 : ℚ) - 1) * 1440 + t.2.1

/-- A calibration record with in-range fields. -/
def ValidState (st : TimeState) : Prop :=
  1 ≤ st.year ∧ 1 ≤ st.day ∧ st.day ≤ 365 ∧
    0 ≤ st.hour ∧ st.hour ≤ 23 ∧ 0 ≤ st.minute ∧ st.minute ≤ 59

/-- Absolute in-game minute index of a derived time. -/
def totalInfo (t : TimeInfo) : ℤ :=
  ((t.year - 1) * 365 + (t.day - 1)) * 1440 + t.hour * 60 + t.minute

end WebhookBot

/-! ### Lemmas about `normalize` and `roll_year` -/

namespace WebhookBot

theorem normalize_lt (day : ℤ) (mf : ℚ) (h : mf < 1440) :
    normalize day mf = (day, mf) := by
  rw [normalize, dif_neg (by linarith)]

theorem normalize_ge (day : ℤ) (mf : ℚ) (h : 1440 ≤ mf) :
    normalize day mf = normalize (day + 1) (mf - 1440) := by
  rw [normalize, dif_pos h]

theorem normalize_range (day : ℤ) (mf : ℚ) (h0 : 0 ≤ mf) :
    0 ≤ (normalize day mf).2 ∧ (normalize day mf).2 < 1440 := by
  induction day, mf using normalize.induct with
  | case1 day mf h ih =>
    rw [normalize_ge day mf h]
    exact ih (by linarith)
  | case2 day mf h =>
    rw [normalize_lt day mf (not_le.mp h)]
    exact ⟨h0, not_le.mp h⟩

theorem normalize_total (day : ℤ) (mf : ℚ) :
    (((normalize day mf).1 : ℚ) - 1) * 1440 + (normalize day mf).2
      = ((day : ℚ) - 1) * 1440 + mf := by
  induction day, mf using normalize.induct with
  | case1 day mf h ih =>
    rw [normalize_ge day mf h]
    rw [ih]
    push_cast
    ring
  | case2 day mf h =>
    rw [normalize_lt day mf (not_le.mp h)]

theorem normalize_day_ge (day : ℤ) (mf : ℚ) : day ≤ (normalize day mf).1 := by
  induction day, mf using normalize.induct with
  | case1 day mf h ih =>
    rw [normalize_ge day mf h]
    omega
  | case2 day mf h =>
    rw [normalize_lt day mf (not_le.mp h)]

theorem normalize_int (day : ℤ) (mf : ℚ) (h : ∃ k : ℤ, mf = (k : ℚ)) :
    ∃ k : ℤ, (normalize day mf).2 = (k : ℚ) := by
  induction day, mf using normalize.induct with
  | case1 day mf hge ih =>
    rw [normalize_ge day mf hge]
    obtain ⟨k, rfl⟩ := h
    exact ih ⟨k - 1440, by push_cast; ring⟩
  | case2 day mf hlt =>
    rw [normalize_lt day mf (not_le.mp hlt)]
    exact h

theorem roll_year_gt (day year : ℤ) (h : 365 < day) :
    roll_year day year = roll_year (day - 365) (year + 1) := by
  rw [roll_year, dif_pos h]

theorem roll_year_le (day year : ℤ) (h : ¬ 365 < day) :
    roll_year day year = (day, year) := by
  rw [roll_year, dif_neg h]

theorem roll_year_bounds (day year : ℤ) (h : 1 ≤ day) :
    1 ≤ (roll_year day year).1 ∧ (roll_year day year).1 ≤ 365 := by
  induction day, year using roll_year.induct with
  | case1 d y h365 ih =>
    rw [roll_year_gt d y h365]
    exact ih (by omega)
  | case2 d y h365 =>
    rw [roll_year_le d y h365]
    exact ⟨h, by omega⟩

theorem roll_year_total (day year : ℤ) :
    (roll_year day year).2 * 365 + (roll_year day year).1 = year * 365 + day := by
  induction day, year using roll_year.induct with
  | case1 d y h365 ih =>
    rw [roll_year_gt d y h365]
    omega
  | case2 d y h365 =>
    rw [roll_year_le d y h365]

end WebhookBot

/-! ### Step lemmas and invariants for the TimeBot simulation loop -/

namespace TimeBot

theorem simLoop_done (r : ℚ) (s : SimState) (h : r ≤ 0) : simLoop r s = s := by
  rw [simLoop, if_pos h]

theorem simLoop_step_wrap_year (r : ℚ) (s : SimState) (h1 : ¬ r ≤ 0)
    (h2 : 1440 ≤ s.minute_of_day + 1) (h3 : 365 < s.day + 1) :
    simLoop r s = simLoop (r - spm s.minute_of_day) ⟨0, 1, s.year + 1⟩ := by
  rw [simLoop, if_neg h1]
  show (if 1440 ≤ s.minute_of_day + 1 then
          if 365 < s.day + 1 then
            simLoop (r - spm s.minute_of_day) ⟨0, 1, s.year + 1⟩
          else simLoop (r - spm s.minute_of_day) ⟨0, s.day + 1, s.year⟩
        else simLoop (r - spm s.minute_of_day) ⟨s.minute_of_day + 1, s.day, s.year⟩) = _
  rw [if_pos h2, if_pos h3]

theorem simLoop_step_wrap_day (r : ℚ) (s : SimState) (h1 : ¬ r ≤ 0)
    (h2 : 1440 ≤ s.minute_of_day + 1) (h3 : ¬ 365 < s.day + 1) :
    simLoop r s = simLoop (r - spm s.minute_of_day) ⟨0, s.day + 1, s.year⟩ := by
  rw [simLoop, if_neg h1]
  show (if 1440 ≤ s.minute_of_day + 1 then
          if 365 < s.day + 1 then
            simLoop (r - spm s.minute_of_day) ⟨0, 1, s.year + 1⟩
          else simLoop (r - spm s.minute_of_day) ⟨0, s.day + 1, s.year⟩
        else simLoop (r - spm s.minute_of_day) ⟨s.minute_of_day + 1, s.day, s.year⟩) = _
  rw [if_pos h2, if_neg h3]

theorem simLoop_step_mid (r : ℚ) (s : SimState) (h1 : ¬ r ≤ 0)
    (h2 : ¬ 1440 ≤ s.minute_of_day + 1) :
    simLoop r s = simLoop (r - spm s.minute_of_day) ⟨s.minute_of_day + 1, s.day, s.year⟩ := by
  rw [simLoop, if_neg h1]
  show (if 1440 ≤ s.minute_of_day + 1 then
          if 365 < s.day + 1 then
            simLoop (r - spm s.minute_of_day) ⟨0, 1, s.year + 1⟩
          else simLoop (r - spm s.minute_of_day) ⟨0, s.day + 1, s.year⟩
        else simLoop (r - spm s.minute_of_day) ⟨s.minute_of_day + 1, s.day, s.year⟩) = _
  rw [if_neg h2]

theorem validSim_mk (m d y : ℤ) (h1 : 0 ≤ m) (h2 : m < 1440)
    (h3 : 1 ≤ d) (h4 : d ≤ 365) (h5 : 1 ≤ y) :
    ValidSim ⟨m, d, y⟩ := ⟨h1, h2, h3, h4, h5⟩

theorem totalMin_mk (m d y : ℤ) :
    totalMin ⟨m, d, y⟩ = ((y - 1) * 365 + (d - 1)) * 1440 + m := rfl

theorem simLoop_valid (r : ℚ) (s : SimState) (hv : ValidSim s) :
    ValidSim (simLoop r s) := by
  induction r, s using simLoop.induct with
  | case1 r s h =>
    rw [simLoop_done r s h]
    exact hv
  | case2 r s h1 r' m' h2 d' h3 ih =>
    obtain ⟨v1, v2, v3, v4, v5⟩ := hv
    rw [simLoop_step_wrap_year r s h1 h2 h3]
    exact ih (validSim_mk _ _ _ (by omega) (by omega) (by omega) (by omega) (by omega))
  | case3 r s h1 r' m' h2 d' h3 ih =>
    obtain ⟨v1, v2, v3, v4, v5⟩ := hv
    rw [simLoop_step_wrap_day r s h1 h2 h3]
    exact ih (validSim_mk _ _ _ (by omega) (by omega) (by omega) (by omega) v5)
  | case4 r s h1 r' m' h2 ih =>
    obtain ⟨v1, v2, v3, v4, v5⟩ := hv
    rw [simLoop_step_mid r s h1 h2]
    exact ih (validSim_mk _ _ _ (by omega) (by omega) v3 v4 v5)

theorem simLoop_total_ge (r : ℚ) (s : SimState) (hv : ValidSim s) :
    totalMin s ≤ totalMin (simLoop r s) := by
  induction r, s using simLoop.induct with
  | case1 r s h =>
    rw [simLoop_done r s h]
  | case2 r s h1 r' m' h2 d' h3 ih =>
    obtain ⟨v1, v2, v3, v4, v5⟩ := hv
    have er : r' = r - spm s.minute_of_day := rfl
    rw [er] at ih
    rw [simLoop_step_wrap_year r s h1 h2 h3]
    have hstep := ih (validSim_mk _ _ _ (by omega) (by omega) (by omega) (by omega)
      (by omega))
    have heq : totalMin s + 1 = totalMin (⟨0, 1, s.year + 1⟩ : SimState) := by
      rw [totalMin_mk]
      have hm : s.minute_of_day = 1439 := by omega
      have hd : s.day = 365 := by omega
      unfold totalMin
      rw [hm, hd]
      ring
    omega
  | case3 r s h1 r' m' h2 d' h3 ih =>
    obtain ⟨v1, v2, v3, v4, v5⟩ := hv
    have er : r' = r - spm s.minute_of_day := rfl
    have ed : d' = s.day + 1 := rfl
    rw [er, ed] at ih
    rw [simLoop_step_wrap_day r s h1 h2 h3]
    have hstep := ih (validSim_mk _ _ _ (by omega) (by omega) (by omega) (by omega) v5)
    have heq : totalMin s + 1 = totalMin (⟨0, s.day + 1, s.year⟩ : SimState) := by
      rw [totalMin_mk]
      have hm : s.minute_of_day = 1439 := by omega
      unfold totalMin
      rw [hm]
      ring
    omega
  | case4 r s h1 r' m' h2 ih =>
    obtain ⟨v1, v2, v3, v4, v5⟩ := hv
    have er : r' = r - spm s.minute_of_day := rfl
    have em : m' = s.minute_of_day + 1 := rfl
    rw [er, em] at ih
    rw [simLoop_step_mid r s h1 h2]
    have hstep := ih (validSim_mk _ _ _ (by omega) (by omega) v3 v4 v5)
    have heq : totalMin s + 1
        = totalMin (⟨s.minute_of_day + 1, s.day, s.year⟩ : SimState) := by
      rw [totalMin_mk]
      unfold totalMin
      ring
    omega

theorem simLoop_mono (r1 : ℚ) (s : SimState) (hv : ValidSim s) :
    ∀ r2, r1 ≤ r2 → totalMin (simLoop r1 s) ≤ totalMin (simLoop r2 s) := by
  induction r1, s using simLoop.induct with
  | case1 r s h =>
    intro r2 h12
    rw [simLoop_done r s h]
    exact simLoop_total_ge r2 s hv
  | case2 r s h1 r' m' h2 d' h3 ih =>
    intro r2 h12
    obtain ⟨v1, v2, v3, v4, v5⟩ := hv
    have er : r' = r - spm s.minute_of_day := rfl
    rw [er] at ih
    have h1' : ¬ r2 ≤ 0 := by intro hc; exact h1 (le_trans h12 hc)
    rw [simLoop_step_wrap_year r s h1 h2 h3,
        simLoop_step_wrap_year r2 s h1' h2 h3]
    exact ih (validSim_mk _ _ _ (by omega) (by omega) (by omega) (by omega) (by omega))
      _ (by linarith)
  | case3 r s h1 r' m' h2 d' h3 ih =>
    intro r2 h12
    obtain ⟨v1, v2, v3, v4, v5⟩ := hv
    have er : r' = r - spm s.minute_of_day := rfl
    have ed : d' = s.day + 1 := rfl
    rw [er, ed] at ih
    have h1' : ¬ r2 ≤ 0 := by intro hc; exact h1 (le_trans h12 hc)
    rw [simLoop_step_wrap_day r s h1 h2 h3,
        simLoop_step_wrap_day r2 s h1' h2 h3]
    exact ih (validSim_mk _ _ _ (by omega) (by omega) (by omega) (by omega) v5)
      _ (by linarith)
  | case4 r s h1 r' m' h2 ih =>
    intro r2 h12
    obtain ⟨v1, v2, v3, v4, v5⟩ := hv
    have er : r' = r - spm s.minute_of_day := rfl
    have em : m' = s.minute_of_day + 1 := rfl
    rw [er, em] at ih
    have h1' : ¬ r2 ≤ 0 := by intro hc; exact h1 (le_trans h12 hc)
    rw [simLoop_step_mid r s h1 h2, simLoop_step_mid r2 s h1' h2]
    exact ih (validSim_mk _ _ _ (by omega) (by omega) v3 v4 v5) _ (by linarith)

end TimeBot

/-! ### Step lemmas and invariants for the WebhookBot piecewise loop -/

namespace WebhookBot

theorem spmAt_pos (mf : ℚ) : 0 < spmAt mf := seconds_per_minute_pos _

theorem minsUB_nonneg (day : ℤ) (mf : ℚ) : 0 ≤ minsUB day mf := le_max_left 0 _

theorem totalQ_mk (d : ℤ) (m r : ℚ) : totalQ (d, m, r) = ((d : ℚ) - 1) * 1440 + m := rfl

theorem advLoop_zero (day : ℤ) (mf r : ℚ) : advLoop 0 day mf r = (day, mf, r) := rfl

theorem advLoop_done (fuel : ℕ) (day : ℤ) (mf r : ℚ) (h : r ≤ 0) :
    advLoop fuel day mf r = (day, mf, r) := by
  cases fuel with
  | zero => rfl
  | succ k =>
    rw [advLoop, if_pos h]

theorem advLoop_step_jump (fuel : ℕ) (day : ℤ) (mf r : ℚ) (hf : fuel ≠ 0)
    (hr : ¬ r ≤ 0) (hc1 : 0 < secsUB day mf) (hc2 : secsUB day mf ≤ r) :
    advLoop fuel day mf r
      = advLoop (fuel - 1) (normalize day (mf + minsUB day mf)).1
          (normalize day (mf + minsUB day mf)).2 (r - secsUB day mf) := by
  obtain ⟨k, rfl⟩ : ∃ k, fuel = k + 1 :=
    ⟨fuel - 1, (Nat.succ_pred_eq_of_pos (Nat.pos_of_ne_zero hf)).symm⟩
  simp only [Nat.add_sub_cancel]
  rw [advLoop, if_neg hr]
  show (if 0 < secsUB day mf ∧ secsUB day mf ≤ r then
          advLoop k (normalize day (mf + minsUB day mf)).1
            (normalize day (mf + minsUB day mf)).2 (r - secsUB day mf)
        else
          advLoop k (normalize day (mf + r / spmAt mf)).1
            (normalize day (mf + r / spmAt mf)).2 0) = _
  rw [if_pos ⟨hc1, hc2⟩]

theorem advLoop_step_partial (fuel : ℕ) (day : ℤ) (mf r : ℚ) (hf : fuel ≠ 0)
    (hr : ¬ r ≤ 0) (hc : ¬ (0 < secsUB day mf ∧ secsUB day mf ≤ r)) :
    advLoop fuel day mf r
      = advLoop (fuel - 1) (normalize day (mf + r / spmAt mf)).1
          (normalize day (mf + r / spmAt mf)).2 0 := by
  obtain ⟨k, rfl⟩ : ∃ k, fuel = k + 1 :=
    ⟨fuel - 1, (Nat.succ_pred_eq_of_pos (Nat.pos_of_ne_zero hf)).symm⟩
  simp only [Nat.add_sub_cancel]
  rw [advLoop, if_neg hr]
  show (if 0 < secsUB day mf ∧ secsUB day mf ≤ r then
          advLoop k (normalize day (mf + minsUB day mf)).1
            (normalize day (mf + minsUB day mf)).2 (r - secsUB day mf)
        else
          advLoop k (normalize day (mf + r / spmAt mf)).1
            (normalize day (mf + r / spmAt mf)).2 0) = _
  rw [if_neg hc]

theorem advLoop_total_ge (fuel : ℕ) (day : ℤ) (mf r : ℚ) :
    ((day : ℚ) - 1) * 1440 + mf ≤ totalQ (advLoop fuel day mf r) := by
  induction fuel, day, mf, r using advLoop.induct with
  | case1 day mf r =>
    rw [advLoop_zero, totalQ_mk]
  | case2 fuel day mf r hr =>
    rw [advLoop_done _ day mf r hr, totalQ_mk]
  | case3 fuel day mf r hr mod spm bt ct mins secs hcond n ih =>
    have es : secs = secsUB day mf := rfl
    rw [es] at hcond
    have en : n = normalize day (mf + minsUB day mf) := rfl
    rw [en, es] at ih
    rw [advLoop_step_jump (fuel + 1) day mf r (Nat.succ_ne_zero fuel) hr
      hcond.1 hcond.2]
    simp only [Nat.add_sub_cancel]
    have htot := normalize_total day (mf + minsUB day mf)
    have hm := minsUB_nonneg day mf
    calc ((day : ℚ) - 1) * 1440 + mf
        ≤ ((day : ℚ) - 1) * 1440 + (mf + minsUB day mf) := by linarith
    _ = (((normalize day (mf + minsUB day mf)).1 : ℚ) - 1) * 1440
          + (normalize day (mf + minsUB day mf)).2 := htot.symm
    _ ≤ _ := ih
  | case4 fuel day mf r hr mod spm bt ct mins secs hcond n ih =>
    have es : secs = secsUB day mf := rfl
    rw [es] at hcond
    have en : n = normalize day (mf + r / spmAt mf) := rfl
    rw [en] at ih
    rw [ advLoop_step_partial (fuel + 1) day mf r (Nat.succ_ne_zero fuel) hr hcond]
    simp only [Nat.add_sub_cancel]
    have htot := normalize_total day (mf + r / spmAt mf)
    have hd : 0 ≤ r / spmAt mf := by
      have := spmAt_pos mf
      have hr' : 0 ≤ r := le_of_lt (not_le.mp hr)
      positivity
    calc ((day : ℚ) - 1) * 1440 + mf
        ≤ ((day : ℚ) - 1) * 1440 + (mf + r / spmAt mf) := by linarith
    _ = (((normalize day (mf + r / spmAt mf)).1 : ℚ) - 1) * 1440
          + (normalize day (mf + r / spmAt mf)).2 := htot.symm
    _ ≤ _ := ih

theorem advLoop_mono (fuel : ℕ) :
    ∀ (day : ℤ) (mf r1 r2 : ℚ), r1 ≤ r2 →
      totalQ (advLoop fuel day mf r1) ≤ totalQ (advLoop fuel day mf r2) := by
  induction fuel with
  | zero =>
    intro day mf r1 r2 _
    rw [advLoop_zero, advLoop_zero, totalQ_mk, totalQ_mk]
  | succ k ih =>
    intro day mf r1 r2 h12
    by_cases hr1 : r1 ≤ 0
    · rw [advLoop_done _ _ _ _ hr1, totalQ_mk]
      exact advLoop_total_ge (k + 1) day mf r2
    · have hr2 : ¬ r2 ≤ 0 := fun hc => hr1 (le_trans h12 hc)
      have hfne : (k + 1 : ℕ) ≠ 0 := Nat.succ_ne_zero k
      by_cases hc1 : 0 < secsUB day mf ∧ secsUB day mf ≤ r1
      · have hc2 : 0 < secsUB day mf ∧ secsUB day mf ≤ r2 :=
          ⟨hc1.1, le_trans hc1.2 h12⟩
        rw [advLoop_step_jump _ _ _ _ hfne hr1 hc1.1 hc1.2,
            advLoop_step_jump _ _ _ _ hfne hr2 hc2.1 hc2.2]
        simp only [Nat.add_sub_cancel]
        exact ih _ _ _ _ (by linarith)
      · rw [ advLoop_step_partial _ _ _ _ hfne hr1 hc1,
            advLoop_done _ _ _ _ (le_refl 0), totalQ_mk]
        by_cases hc2 : 0 < secsUB day mf ∧ secsUB day mf ≤ r2
        · rw [advLoop_step_jump _ _ _ _ hfne hr2 hc2.1 hc2.2, totalQ_mk]
          have h1 := advLoop_total_ge ((k + 1) - 1)
            (normalize day (mf + minsUB day mf)).1
            (normalize day (mf + minsUB day mf)).2 (r2 - secsUB day mf)
          rw [totalQ_mk] at h1
          have h2 := normalize_total day (mf + minsUB day mf)
          have h3 := normalize_total day (mf + r1 / spmAt mf)
          have hlt : r1 / spmAt mf ≤ minsUB day mf := by
            have hspm := spmAt_pos mf
            have hr1' : r1 < secsUB day mf := by
              by_contra hcon
              exact hc1 ⟨hc2.1, not_lt.mp hcon⟩
            have hlt' : r1 < minsUB day mf * spmAt mf := by
              rw [show minsUB day mf * spmAt mf = secsUB day mf from rfl]
              exact hr1'
            exact le_of_lt ((div_lt_iff₀ hspm).mpr hlt')
          linarith
        · rw [ advLoop_step_partial _ _ _ _ hfne hr2 hc2,
              advLoop_done _ _ _ _ (le_refl 0), totalQ_mk]
          have h1 := normalize_total day (mf + r1 / spmAt mf)
          have h2 := normalize_total day (mf + r2 / spmAt mf)
          have hdiv : r1 / spmAt mf ≤ r2 / spmAt mf := by
            have hspm := spmAt_pos mf
            gcongr
          linarith

theorem advLoop_out_range (fuel : ℕ) (day : ℤ) (mf r : ℚ)
    (h0 : 0 ≤ mf) (h1 : mf < 1440) :
    0 ≤ (advLoop fuel day mf r).2.1 ∧ (advLoop fuel day mf r).2.1 < 1440 := by
  induction fuel, day, mf, r using advLoop.induct with
  | case1 day mf r =>
    rw [advLoop_zero]
    exact ⟨h0, h1⟩
  | case2 fuel day mf r hr =>
    rw [advLoop_done _ day mf r hr]
    exact ⟨h0, h1⟩
  | case3 fuel day mf r hr mod spm bt ct mins secs hcond n ih =>
    have es : secs = secsUB day mf := rfl
    rw [es] at hcond
    have en : n = normalize day (mf + minsUB day mf) := rfl
    rw [en, es] at ih
    rw [advLoop_step_jump (fuel + 1) day mf r (Nat.succ_ne_zero fuel) hr
      hcond.1 hcond.2]
    simp only [Nat.add_sub_cancel]
    have hnext : 0 ≤ mf + minsUB day mf := by
      have := minsUB_nonneg day mf
      linarith
    have hrange := normalize_range day (mf + minsUB day mf) hnext
    exact ih hrange.1 hrange.2
  | case4 fuel day mf r hr mod spm bt ct mins secs hcond n ih =>
    have es : secs = secsUB day mf := rfl
    rw [es] at hcond
    have en : n = normalize day (mf + r / spmAt mf) := rfl
    rw [en] at ih
    rw [ advLoop_step_partial (fuel + 1) day mf r (Nat.succ_ne_zero fuel) hr hcond]
    simp only [Nat.add_sub_cancel]
    have hnext : 0 ≤ mf + r / spmAt mf := by
      have hspm := spmAt_pos mf
      have hr' : 0 ≤ r := le_of_lt (not_le.mp hr)
      have : 0 ≤ r / spmAt mf := by positivity
      linarith
    have hrange := normalize_range day (mf + r / spmAt mf) hnext
    exact ih hrange.1 hrange.2

theorem advLoop_day_ge (fuel : ℕ) (day : ℤ) (mf r : ℚ) :
    day ≤ (advLoop fuel day mf r).1 := by
  induction fuel, day, mf, r using advLoop.induct with
  | case1 day mf r =>
    rw [advLoop_zero]
  | case2 fuel day mf r hr =>
    rw [advLoop_done _ day mf r hr]
  | case3 fuel day mf r hr mod spm bt ct mins secs hcond n ih =>
    have es : secs = secsUB day mf := rfl
    rw [es] at hcond
    have en : n = normalize day (mf + minsUB day mf) := rfl
    rw [en, es] at ih
    rw [advLoop_step_jump (fuel + 1) day mf r (Nat.succ_ne_zero fuel) hr
      hcond.1 hcond.2]
    simp only [Nat.add_sub_cancel]
    have := normalize_day_ge day (mf + minsUB day mf)
    omega
  | case4 fuel day mf r hr mod spm bt ct mins secs hcond n ih =>
    have es : secs = secsUB day mf := rfl
    rw [es] at hcond
    have en : n = normalize day (mf + r / spmAt mf) := rfl
    rw [en] at ih
    rw [ advLoop_step_partial (fuel + 1) day mf r (Nat.succ_ne_zero fuel) hr hcond]
    simp only [Nat.add_sub_cancel]
    have := normalize_day_ge day (mf + r / spmAt mf)
    omega

end WebhookBot

/-! ### A common rate function and its prefix sums

Both bots advance the clock at `4.7666667` real seconds per in-game minute
during day minutes and `4.045` during night minutes.  `rate t` is that
rate at absolute in-game minute `t`; `rateSum t n` is the real time needed
to advance `n` whole minutes starting at minute `t`.  These are used to
characterise both loop implementations. -/

/-- Real seconds consumed by the in-game minute with absolute index `t`. -/
def rate (t : ℤ) : ℚ := WebhookBot.seconds_per_minute (t % 1440)

/-- Real seconds consumed by the `n` in-game minutes starting at absolute
minute `t`. -/
def rateSum (t : ℤ) : ℕ → ℚ
  | 0 => 0
  | n + 1 => rateSum t n + rate (t + n)

theorem rate_pos (t : ℤ) : 0 < rate t := WebhookBot.seconds_per_minute_pos _

theorem rate_ge_four (t : ℤ) : (4 : ℚ) ≤ rate t := by
  unfold rate WebhookBot.seconds_per_minute
  split <;> norm_num [WebhookBot.DAY_SECONDS_PER_INGAME_MINUTE,
    WebhookBot.NIGHT_SECONDS_PER_INGAME_MINUTE]

theorem rateSum_zero (t : ℤ) : rateSum t 0 = 0 := rfl

theorem rateSum_succ (t : ℤ) (n : ℕ) :
    rateSum t (n + 1) = rateSum t n + rate (t + n) := rfl

theorem rateSum_nonneg (t : ℤ) (n : ℕ) : 0 ≤ rateSum t n := by
  induction n with
  | zero => exact le_refl 0
  | succ k ih =>
    rw [rateSum_succ]
    have := rate_pos (t + k)
    linarith

theorem rateSum_mono (t : ℤ) {a b : ℕ} (h : a ≤ b) : rateSum t a ≤ rateSum t b := by
  induction b with
  | zero =>
    have : a = 0 := by omega
    rw [this]
  | succ k ih =>
    rcases Nat.lt_or_ge a (k + 1) with hlt | hge
    · have ha : a ≤ k := by omega
      rw [rateSum_succ]
      have := rate_pos (t + k)
      have := ih ha
      linarith
    · have : a = k + 1 := by omega
      rw [this]

theorem rateSum_strict_mono (t : ℤ) {a b : ℕ} (h : a < b) :
    rateSum t a < rateSum t b := by
  have h1 : a + 1 ≤ b := h
  have h2 : rateSum t (a + 1) ≤ rateSum t b := rateSum_mono t h1
  rw [rateSum_succ] at h2
  have := rate_pos (t + a)
  linarith

theorem rateSum_add (t : ℤ) (a b : ℕ) :
    rateSum t (a + b) = rateSum t a + rateSum (t + a) b := by
  induction b with
  | zero => rw [Nat.add_zero, rateSum_zero, add_zero]
  | succ k ih =>
    have : a + (k + 1) = (a + k) + 1 := by omega
    rw [this, rateSum_succ, ih, rateSum_succ]
    have : t + a + k = t + (a + k : ℕ) := by push_cast; ring
    rw [this]
    ring

theorem rateSum_const (t : ℤ) (c : ℚ) (m : ℕ)
    (h : ∀ j : ℕ, j < m → rate (t + j) = c) : rateSum t m = m * c := by
  induction m with
  | zero => rw [rateSum_zero]; norm_num
  | succ k ih =>
    rw [rateSum_succ, ih (fun j hj => h j (by omega)), h k (by omega)]
    push_cast
    ring

/-- The number of iterations of the TimeBot simulation loop: whole
in-game minutes are consumed, starting at absolute minute `t`, until the
elapsed real time `r` is exhausted. -/
def nSteps (r : ℚ) (t : ℤ) : ℕ :=
  if r ≤ 0 then 0 else nSteps (r - rate t) (t + 1) + 1
termination_by (⌈r⌉).toNat
decreasing_by
  exact TimeBot.ceil_toNat_lt_of_sub (by assumption) (rate_ge_four t)

theorem nSteps_done (r : ℚ) (t : ℤ) (h : r ≤ 0) : nSteps r t = 0 := by
  rw [nSteps, if_pos h]

theorem nSteps_step (r : ℚ) (t : ℤ) (h : ¬ r ≤ 0) :
    nSteps r t = nSteps (r - rate t) (t + 1) + 1 := by
  rw [nSteps, if_neg h]

theorem rateSum_shift (t : ℤ) (n : ℕ) :
    rateSum t (n + 1) = rate t + rateSum (t + 1) n := by
  induction n with
  | zero =>
    rw [rateSum_succ, rateSum_zero, rateSum_zero]
    push_cast
    ring_nf
  | succ k ih =>
    rw [rateSum_succ, ih, rateSum_succ]
    have harg : t + ((k : ℤ) + 1) = t + 1 + (k : ℤ) := by ring
    push_cast
    rw [harg]
    ring

theorem nSteps_le (r : ℚ) (t : ℤ) : r ≤ rateSum t (nSteps r t) := by
  induction r, t using nSteps.induct with
  | case1 r t h =>
    rw [nSteps_done r t h]
    exact le_trans h (rateSum_nonneg t 0)
  | case2 r t h ih =>
    rw [nSteps_step r t h, rateSum_shift]
    linarith

theorem nSteps_lt (r : ℚ) (t : ℤ) (h0 : 0 < r) :
    rateSum t (nSteps r t - 1) < r := by
  induction r, t using nSteps.induct with
  | case1 r t h =>
    exact absurd h0 (not_lt.mpr h)
  | case2 r t h ih =>
    rw [nSteps_step r t h]
    simp only [Nat.add_sub_cancel]
    by_cases hz : r - rate t ≤ 0
    · rw [nSteps_done _ _ hz, rateSum_zero]
      exact h0
    · have hpos : 0 < r - rate t := not_le.mp hz
      have hin := ih hpos
      have hn1 : 1 ≤ nSteps (r - rate t) (t + 1) := by
        by_contra hc
        have h00 : nSteps (r - rate t) (t + 1) = 0 := by omega
        have hle := nSteps_le (r - rate t) (t + 1)
        rw [h00, rateSum_zero] at hle
        linarith
      have hdecomp : nSteps (r - rate t) (t + 1)
          = (nSteps (r - rate t) (t + 1) - 1) + 1 := by omega
      rw [hdecomp, rateSum_shift]
      linarith

theorem emod_eq_self (m : ℤ) (h0 : 0 ≤ m) (h1 : m < 1440) :
    m % 1440 = m := Int.emod_eq_of_lt h0 h1

theorem emod_total (m K : ℤ) (h0 : 0 ≤ m) (h1 : m < 1440) :
    (m + 1440 * K) % 1440 = m := by
  have h := Int.add_mul_emod_self_left (a := m) (b := 1440) (c := K)
  exact h.trans (Int.emod_eq_of_lt h0 h1)

theorem pyInt_intCast (k : ℤ) : pyInt ((k : ℤ) : ℚ) = k := by
  unfold pyInt
  by_cases h : (0 : ℚ) ≤ (k : ℚ)
  · rw [if_pos h, Int.floor_intCast]
  · rw [if_neg h, show (-(k : ℚ)) = ((-k : ℤ) : ℚ) by push_cast; ring,
      Int.floor_intCast]
    ring

/-- Real time needed to advance from absolute minute `t0` to the possibly
fractional position `t0 + x` (for `x ≥ 0`), integrating the piecewise
rate: whole minutes at their own rates plus a partial minute at the rate
of the minute it lies in. -/
def iInt (t0 : ℤ) (x : ℚ) : ℚ :=
  rateSum t0 (⌊x⌋).toNat + (x - ⌊x⌋) * rate (t0 + ⌊x⌋)

theorem iInt_intCast (t0 x : ℤ) : iInt t0 ((x : ℤ) : ℚ) = rateSum t0 x.toNat := by
  unfold iInt
  rw [Int.floor_intCast]
  ring_nf

theorem iInt_sandwich (t0 : ℤ) (x : ℚ) (hx : 0 ≤ x) :
    rateSum t0 (⌊x⌋).toNat ≤ iInt t0 x ∧
      iInt t0 x ≤ rateSum t0 ((⌊x⌋).toNat + 1) := by
  unfold iInt
  have hf0 : 0 ≤ x - ⌊x⌋ := sub_nonneg.mpr (Int.floor_le x)
  have hf1 : x - ⌊x⌋ ≤ 1 := by
    have := Int.lt_floor_add_one x
    linarith
  have hrp := rate_pos (t0 + ⌊x⌋)
  constructor
  · nlinarith
  · rw [rateSum_succ]
    have hcast : (((⌊x⌋).toNat : ℕ) : ℤ) = ⌊x⌋ :=
      Int.toNat_of_nonneg (Int.floor_nonneg.mpr hx)
    rw [hcast]
    nlinarith

theorem iInt_add_const (t0 : ℤ) (x : ℤ) (hx : 0 ≤ x) (δ : ℚ) (hδ : 0 ≤ δ)
    (mins : ℤ) (hδm : δ ≤ (mins : ℚ))
    (hc : ∀ j : ℤ, x ≤ j → j < x + mins → rate (t0 + j) = rate (t0 + x)) :
    iInt t0 ((x : ℚ) + δ) = iInt t0 (x : ℚ) + δ * rate (t0 + x) := by
  have hmins0 : 0 ≤ mins := by
    have : (0 : ℚ) ≤ (mins : ℚ) := le_trans hδ hδm
    exact_mod_cast this
  have hfl : ⌊(x : ℚ) + δ⌋ = x + ⌊δ⌋ := by
    rw [add_comm ((x : ℚ)) δ, Int.floor_add_int, add_comm]
  have hfδ0 : 0 ≤ ⌊δ⌋ := Int.floor_nonneg.mpr hδ
  have hfδm : ⌊δ⌋ ≤ mins := by
    have h1 : ⌊δ⌋ ≤ ⌊(mins : ℚ)⌋ := Int.floor_le_floor hδm
    rw [Int.floor_intCast] at h1
    exact h1
  unfold iInt
  rw [hfl, Int.floor_intCast]
  have htoNat : (x + ⌊δ⌋).toNat = x.toNat + (⌊δ⌋).toNat := by omega
  rw [htoNat, rateSum_add t0 x.toNat ((⌊δ⌋).toNat)]
  have hcx : ((x.toNat : ℕ) : ℤ) = x := Int.toNat_of_nonneg hx
  rw [hcx]
  have hconst : rateSum (t0 + x) ((⌊δ⌋).toNat)
      = (((⌊δ⌋).toNat : ℕ) : ℚ) * rate (t0 + x) := by
    apply rateSum_const
    intro j hj
    have hj' : (j : ℤ) < ⌊δ⌋ := by omega
    have harg : t0 + x + (j : ℤ) = t0 + (x + j) := by ring
    rw [harg]
    exact hc (x + j) (by omega) (by omega)
  rw [hconst]
  by_cases hcase : ⌊δ⌋ < mins
  · have hrate2 : rate (t0 + (x + ⌊δ⌋)) = rate (t0 + x) :=
      hc (x + ⌊δ⌋) (by omega) (by omega)
    rw [hrate2]
    have hcastδ : (((⌊δ⌋).toNat : ℕ) : ℚ) = ((⌊δ⌋ : ℤ) : ℚ) := by
      exact_mod_cast congrArg (fun z : ℤ => (z : ℚ)) (Int.toNat_of_nonneg hfδ0)
    rw [hcastδ]
    push_cast
    ring
  · have heq : ⌊δ⌋ = mins := by omega
    have hδeq : δ = (mins : ℚ) := by
      have h2 : ((⌊δ⌋ : ℤ) : ℚ) ≤ δ := Int.floor_le δ
      rw [heq] at h2
      linarith
    have hcastδ : (((⌊δ⌋).toNat : ℕ) : ℚ) = ((⌊δ⌋ : ℤ) : ℚ) := by
      exact_mod_cast congrArg (fun z : ℤ => (z : ℚ)) (Int.toNat_of_nonneg hfδ0)
    have hfrac : (x : ℚ) + δ - ((x + ⌊δ⌋ : ℤ) : ℚ) = 0 := by
      rw [heq, hδeq]
      push_cast
      ring
    rw [hfrac, zero_mul, hcastδ, heq, hδeq]
    ring

namespace WebhookBot

theorem is_day_iff (m : ℤ) : is_day m = true ↔ 330 ≤ m ∧ m < 1050 := by
  unfold is_day DAY_START_MIN DAY_END_MIN
  norm_num

theorem spm_day (m : ℤ) (h : 330 ≤ m ∧ m < 1050) :
    seconds_per_minute m = DAY_SECONDS_PER_INGAME_MINUTE := by
  unfold seconds_per_minute
  rw [if_pos ((is_day_iff m).mpr h)]

theorem spm_night (m : ℤ) (h : ¬ (330 ≤ m ∧ m < 1050)) :
    seconds_per_minute m = NIGHT_SECONDS_PER_INGAME_MINUTE := by
  unfold seconds_per_minute
  rw [if_neg (fun hc => h ((is_day_iff m).mp hc))]

theorem rate_abs (day m : ℤ) (h0 : 0 ≤ m) (h1 : m < 1440) :
    rate ((day - 1) * 1440 + m) = seconds_per_minute m := by
  unfold rate
  have hsplit : (day - 1) * 1440 + m = m + 1440 * (day - 1) := by ring
  rw [hsplit, emod_total m (day - 1) h0 h1]

theorem spmAt_intCast (k : ℤ) (h0 : 0 ≤ k) (h1 : k < 1440) :
    spmAt ((k : ℤ) : ℚ) = seconds_per_minute k := by
  unfold spmAt
  rw [pyInt_intCast, emod_eq_self k h0 h1]

/-- Cast values of the day-window constants. -/
theorem day_start_val : DAY_START_MIN = 330 := by decide

theorem day_end_val : DAY_END_MIN = 1050 := by decide

theorem day_start_cast : ((DAY_START_MIN : ℤ) : ℚ) = 330 := by
  rw [day_start_val]
  norm_num

theorem day_end_cast : ((DAY_END_MIN : ℤ) : ℚ) = 1050 := by
  rw [day_end_val]
  norm_num

/-- The next sunrise/sunset boundary computed by
`next_boundary_total_minutes`, at an integer minute of day `k ∈ [0,1440)`,
is an integer total strictly ahead of the current position, and every
in-game minute strictly before it has the same day/night rate as the
current minute. -/
theorem boundary_spec (day k : ℤ) (h0 : 0 ≤ k) (h1 : k < 1440) :
    ∃ B : ℤ,
      next_boundary_total_minutes day ((k : ℤ) : ℚ) = (B : ℚ) ∧
      (day - 1) * 1440 + k < B ∧
      ∀ j : ℤ, (day - 1) * 1440 + k ≤ j → j < B →
        rate j = seconds_per_minute k := by
  have hmod : pyInt ((k : ℤ) : ℚ) % 1440 = k := by
    rw [pyInt_intCast]
    exact emod_eq_self k h0 h1
  have hkQ0 : (0 : ℚ) ≤ (k : ℚ) := by exact_mod_cast h0
  have hkQ1 : (k : ℚ) < 1440 := by exact_mod_cast h1
  by_cases hd : 330 ≤ k ∧ k < 1050
  · -- the current minute is a day minute: next boundary is sunset today
    have hkd : (k : ℚ) < 1050 := by exact_mod_cast hd.2
    refine ⟨(day - 1) * 1440 + 1050, ?_, by omega, ?_⟩
    · simp only [next_boundary_total_minutes]
      rw [hmod]
      split_ifs with h1' h2' h3' h4' h5'
      · exfalso
        rw [day_end_cast] at h2'
        linarith
      · rw [day_end_cast]
        push_cast
        ring
      · exfalso
        rw [is_day_iff] at h1'
        exact h1' hd
      · exfalso
        rw [is_day_iff] at h1'
        exact h1' hd
      · exfalso
        rw [is_day_iff] at h1'
        exact h1' hd
      · exfalso
        rw [is_day_iff] at h1'
        exact h1' hd
    · intro j hj1 hj2
      have hobnd1 : 0 ≤ j - (day - 1) * 1440 := by omega
      have hobnd2 : j - (day - 1) * 1440 < 1440 := by omega
      have hoeq : j = (j - (day - 1) * 1440) + 1440 * (day - 1) := by ring
      unfold rate
      rw [hoeq, emod_total _ _ hobnd1 hobnd2]
      rw [spm_day _ (by omega), spm_day _ hd]
  · by_cases hlt : k < 330
    · -- a night minute before sunrise: next boundary is sunrise today
      have hkQlt : (k : ℚ) < 330 := by exact_mod_cast hlt
      refine ⟨(day - 1) * 1440 + 330, ?_, by omega, ?_⟩
      · simp only [next_boundary_total_minutes]
        rw [hmod]
        split_ifs with h1' h2' h3' h4' h5'
        · exfalso
          rw [is_day_iff] at h1'
          omega
        · exfalso
          rw [is_day_iff] at h1'
          omega
        · exfalso
          rw [day_start_cast] at h4'
          linarith
        · rw [day_start_cast]
          push_cast
          ring
        · exfalso
          rw [day_start_val] at h3'
          omega
        · exfalso
          rw [day_start_val] at h3'
          omega
      · intro j hj1 hj2
        have hobnd1 : 0 ≤ j - (day - 1) * 1440 := by omega
        have hobnd2 : j - (day - 1) * 1440 < 1440 := by omega
        have hoeq : j = (j - (day - 1) * 1440) + 1440 * (day - 1) := by ring
        unfold rate
        rw [hoeq, emod_total _ _ hobnd1 hobnd2]
        rw [spm_night _ (by omega), spm_night _ hd]
    · -- a night minute after sunset: next boundary is sunrise tomorrow
      have hk1050 : 1050 ≤ k := by omega
      refine ⟨day * 1440 + 330, ?_, by omega, ?_⟩
      · simp only [next_boundary_total_minutes]
        rw [hmod]
        split_ifs with h1' h2' h3' h4' h5'
        · exfalso
          rw [is_day_iff] at h1'
          omega
        · exfalso
          rw [is_day_iff] at h1'
          omega
        · exfalso
          rw [day_start_val] at h3'
          omega
        · exfalso
          rw [day_start_val] at h3'
          omega
        · exfalso
          rw [day_start_cast] at h5'
          linarith
        · rw [day_start_cast]
          push_cast
          ring
      · intro j hj1 hj2
        by_cases hreg : j - (day - 1) * 1440 < 1440
        · have hobnd1 : 0 ≤ j - (day - 1) * 1440 := by omega
          have hoeq : j = (j - (day - 1) * 1440) + 1440 * (day - 1) := by ring
          unfold rate
          rw [hoeq, emod_total _ _ hobnd1 hreg]
          rw [spm_night _ (by omega), spm_night _ hd]
        · have hobnd1 : 0 ≤ j - day * 1440 := by omega
          have hobnd2 : j - day * 1440 < 1440 := by omega
          have hoeq : j = (j - day * 1440) + 1440 * day := by ring
          unfold rate
          rw [hoeq, emod_total _ _ hobnd1 hobnd2]
          rw [spm_night _ (by omega), spm_night _ hd]

end WebhookBot

namespace WebhookBot

/-- The invariant carried by `advLoop` across iterations, for a run that
begins at an integer minute of day: the minute stays in `[0,1440)` and is
an integer while real time remains, the remaining real time stays
non-negative, the position never falls behind the start minute `t0`, and
the piecewise integral of the rate from `t0` to the current position plus
the remaining real time always equals the original elapsed time `e`. -/
theorem advLoop_exact (fuel : ℕ) (day : ℤ) (mf r : ℚ) (t0 : ℤ) (e : ℚ)
    (h0 : 0 ≤ mf) (h1 : mf < 1440)
    (hint : 0 < r → ∃ k : ℤ, mf = (k : ℚ))
    (hr0 : 0 ≤ r)
    (hx0 : (t0 : ℚ) ≤ ((day : ℚ) - 1) * 1440 + mf)
    (hinv : iInt t0 (((day : ℚ) - 1) * 1440 + mf - (t0 : ℚ)) + r = e) :
    (t0 : ℚ) ≤ totalQ (advLoop fuel day mf r) ∧
    0 ≤ (advLoop fuel day mf r).2.2 ∧
    iInt t0 (totalQ (advLoop fuel day mf r) - (t0 : ℚ))
      + (advLoop fuel day mf r).2.2 = e := by
  induction fuel, day, mf, r using advLoop.induct with
  | case1 day mf r =>
    rw [advLoop_zero]
    exact ⟨hx0, hr0, hinv⟩
  | case2 fuel day mf r hr =>
    rw [advLoop_done _ day mf r hr]
    exact ⟨hx0, hr0, hinv⟩
  | case3 fuel day mf r hr mod spm bt ct mins secs hcond n ih =>
    have hrpos : 0 < r := not_le.mp hr
    obtain ⟨k, rfl⟩ := hint hrpos
    have es : secs = secsUB day ((k : ℤ) : ℚ) := rfl
    rw [es] at hcond
    obtain ⟨hcpos, hcle⟩ := hcond
    have hk0 : 0 ≤ k := by exact_mod_cast h0
    have hk1 : k < 1440 := by exact_mod_cast h1
    obtain ⟨B, hB, hBgt, hBconst⟩ := boundary_spec day k hk0 hk1
    have hspm : spmAt ((k : ℤ) : ℚ) = seconds_per_minute k := spmAt_intCast k hk0 hk1
    have hmins0 : 0 < B - ((day - 1) * 1440 + k) := by omega
    have hmins : minsUB day ((k : ℤ) : ℚ) = ((B - ((day - 1) * 1440 + k) : ℤ) : ℚ) := by
      unfold minsUB
      rw [hB]
      have harg : (B : ℚ) - (((day : ℚ) - 1) * 1440 + (k : ℚ))
          = ((B - ((day - 1) * 1440 + k) : ℤ) : ℚ) := by
        push_cast
        ring
      rw [harg, max_eq_right (by exact_mod_cast le_of_lt hmins0)]
    have hsecs : secsUB day ((k : ℤ) : ℚ)
        = ((B - ((day - 1) * 1440 + k) : ℤ) : ℚ) * seconds_per_minute k := by
      unfold secsUB
      rw [hmins, hspm]
    have en : n = normalize day (((k : ℤ) : ℚ) + minsUB day ((k : ℤ) : ℚ)) := rfl
    rw [en, es] at ih
    rw [advLoop_step_jump (fuel + 1) day ((k : ℤ) : ℚ) r (Nat.succ_ne_zero fuel)
      hr hcpos hcle]
    simp only [Nat.add_sub_cancel]
    have hnn : 0 ≤ ((k : ℤ) : ℚ) + minsUB day ((k : ℤ) : ℚ) := by
      have := minsUB_nonneg day ((k : ℤ) : ℚ)
      linarith
    have hrange := normalize_range day (((k : ℤ) : ℚ) + minsUB day ((k : ℤ) : ℚ)) hnn
    have hint' : 0 < r - secsUB day ((k : ℤ) : ℚ) →
        ∃ k' : ℤ, (normalize day (((k : ℤ) : ℚ) + minsUB day ((k : ℤ) : ℚ))).2
          = (k' : ℚ) := by
      intro _
      apply normalize_int
      refine ⟨k + (B - ((day - 1) * 1440 + k)), ?_⟩
      rw [hmins]
      push_cast
      ring
    have hr0' : 0 ≤ r - secsUB day ((k : ℤ) : ℚ) := by linarith
    have htot := normalize_total day (((k : ℤ) : ℚ) + minsUB day ((k : ℤ) : ℚ))
    have htotB :
        (((normalize day (((k : ℤ) : ℚ) + minsUB day ((k : ℤ) : ℚ))).1 : ℚ) - 1) * 1440
          + (normalize day (((k : ℤ) : ℚ) + minsUB day ((k : ℤ) : ℚ))).2 = (B : ℚ) := by
      rw [htot, hmins]
      push_cast
      ring
    have hposx : 0 ≤ (day - 1) * 1440 + k - t0 := by
      have : (t0 : ℚ) ≤ (((day - 1) * 1440 + k : ℤ) : ℚ) := by
        push_cast
        linarith
      exact_mod_cast sub_nonneg.mpr this
    have hrate0 : rate (t0 + ((day - 1) * 1440 + k - t0)) = seconds_per_minute k := by
      have harg : t0 + ((day - 1) * 1440 + k - t0) = (day - 1) * 1440 + k := by ring
      rw [harg]
      exact rate_abs day k hk0 hk1
    have hadd := iInt_add_const t0 ((day - 1) * 1440 + k - t0) hposx
      ((B - ((day - 1) * 1440 + k) : ℤ) : ℚ) (by exact_mod_cast le_of_lt hmins0)
      (B - ((day - 1) * 1440 + k)) (le_refl _)
      (by
        intro j hj1 hj2
        rw [hrate0]
        have harg : t0 + j = (t0 + j) := rfl
        have := hBconst (t0 + j) (by omega) (by omega)
        exact this)
    rw [hrate0] at hadd
    have hargx : ((((day - 1) * 1440 + k - t0 : ℤ) : ℚ))
        = ((day : ℚ) - 1) * 1440 + ((k : ℤ) : ℚ) - (t0 : ℚ) := by
      push_cast
      ring
    have hargxB : ((((day - 1) * 1440 + k - t0 : ℤ) : ℚ))
        + ((B - ((day - 1) * 1440 + k) : ℤ) : ℚ) = (B : ℚ) - (t0 : ℚ) := by
      push_cast
      ring
    rw [hargxB, hargx] at hadd
    have hinv' : iInt t0
        ((((normalize day (((k : ℤ) : ℚ) + minsUB day ((k : ℤ) : ℚ))).1 : ℚ) - 1) * 1440
          + (normalize day (((k : ℤ) : ℚ) + minsUB day ((k : ℤ) : ℚ))).2 - (t0 : ℚ))
        + (r - secsUB day ((k : ℤ) : ℚ)) = e := by
      rw [htotB, hadd, hsecs]
      linarith
    have hx0' : (t0 : ℚ) ≤
        (((normalize day (((k : ℤ) : ℚ) + minsUB day ((k : ℤ) : ℚ))).1 : ℚ) - 1) * 1440
          + (normalize day (((k : ℤ) : ℚ) + minsUB day ((k : ℤ) : ℚ))).2 := by
      rw [htotB]
      have h3 : ((((day - 1) * 1440 + k : ℤ) : ℚ)) < (B : ℚ) := by exact_mod_cast hBgt
      push_cast at h3 ⊢
      linarith
    exact ih hrange.1 hrange.2 hint' hr0' hx0' hinv'
  | case4 fuel day mf r hr mod spm bt ct mins secs hcond n ih =>
    have hrpos : 0 < r := not_le.mp hr
    obtain ⟨k, rfl⟩ := hint hrpos
    have es : secs = secsUB day ((k : ℤ) : ℚ) := rfl
    rw [es] at hcond
    have hk0 : 0 ≤ k := by exact_mod_cast h0
    have hk1 : k < 1440 := by exact_mod_cast h1
    obtain ⟨B, hB, hBgt, hBconst⟩ := boundary_spec day k hk0 hk1
    have hspm : spmAt ((k : ℤ) : ℚ) = seconds_per_minute k := spmAt_intCast k hk0 hk1
    have hspmpos : 0 < spmAt ((k : ℤ) : ℚ) := spmAt_pos _
    have hmins0 : 0 < B - ((day - 1) * 1440 + k) := by omega
    have hmins : minsUB day ((k : ℤ) : ℚ) = ((B - ((day - 1) * 1440 + k) : ℤ) : ℚ) := by
      unfold minsUB
      rw [hB]
      have harg : (B : ℚ) - (((day : ℚ) - 1) * 1440 + (k : ℚ))
          = ((B - ((day - 1) * 1440 + k) : ℤ) : ℚ) := by
        push_cast
        ring
      rw [harg, max_eq_right (by exact_mod_cast le_of_lt hmins0)]
    have hcpos : 0 < secsUB day ((k : ℤ) : ℚ) := by
      unfold secsUB
      rw [hmins]
      have hm : (0 : ℚ) < ((B - ((day - 1) * 1440 + k) : ℤ) : ℚ) := by
        exact_mod_cast hmins0
      exact mul_pos hm hspmpos
    have hslt : r < secsUB day ((k : ℤ) : ℚ) := by
      by_contra hcon
      exact hcond ⟨hcpos, not_lt.mp hcon⟩
    have hδpos : 0 < r / spmAt ((k : ℤ) : ℚ) := div_pos hrpos hspmpos
    have hδlt : r / spmAt ((k : ℤ) : ℚ) < ((B - ((day - 1) * 1440 + k) : ℤ) : ℚ) := by
      rw [div_lt_iff₀ hspmpos]
      have : secsUB day ((k : ℤ) : ℚ)
          = ((B - ((day - 1) * 1440 + k) : ℤ) : ℚ) * spmAt ((k : ℤ) : ℚ) := by
        unfold secsUB
        rw [hmins]
      linarith [hslt, this ▸ hslt]
    have en : n = normalize day (((k : ℤ) : ℚ) + r / spmAt ((k : ℤ) : ℚ)) := rfl
    rw [en] at ih
    rw [ advLoop_step_partial (fuel + 1) day ((k : ℤ) : ℚ) r (Nat.succ_ne_zero fuel)
      hr hcond]
    simp only [Nat.add_sub_cancel]
    have hnn : 0 ≤ ((k : ℤ) : ℚ) + r / spmAt ((k : ℤ) : ℚ) := by linarith
    have hrange := normalize_range day (((k : ℤ) : ℚ) + r / spmAt ((k : ℤ) : ℚ)) hnn
    have hint' : (0 : ℚ) < 0 →
        ∃ k' : ℤ, (normalize day (((k : ℤ) : ℚ) + r / spmAt ((k : ℤ) : ℚ))).2
          = (k' : ℚ) := fun hc => absurd hc (lt_irrefl 0)
    have hposx : 0 ≤ (day - 1) * 1440 + k - t0 := by
      have : (t0 : ℚ) ≤ (((day - 1) * 1440 + k : ℤ) : ℚ) := by
        push_cast
        linarith
      exact_mod_cast sub_nonneg.mpr this
    have hrate0 : rate (t0 + ((day - 1) * 1440 + k - t0)) = seconds_per_minute k := by
      have harg : t0 + ((day - 1) * 1440 + k - t0) = (day - 1) * 1440 + k := by ring
      rw [harg]
      exact rate_abs day k hk0 hk1
    have hadd := iInt_add_const t0 ((day - 1) * 1440 + k - t0) hposx
      (r / spmAt ((k : ℤ) : ℚ)) (le_of_lt hδpos)
      (B - ((day - 1) * 1440 + k)) (le_of_lt hδlt)
      (by
        intro j hj1 hj2
        rw [hrate0]
        exact hBconst (t0 + j) (by omega) (by omega))
    rw [hrate0] at hadd
    have hcancel : r / spmAt ((k : ℤ) : ℚ) * seconds_per_minute k = r := by
      rw [← hspm]
      exact div_mul_cancel₀ r (ne_of_gt hspmpos)
    have htot := normalize_total day (((k : ℤ) : ℚ) + r / spmAt ((k : ℤ) : ℚ))
    have hargx : ((((day - 1) * 1440 + k - t0 : ℤ) : ℚ))
        = ((day : ℚ) - 1) * 1440 + ((k : ℤ) : ℚ) - (t0 : ℚ) := by
      push_cast
      ring
    have hinv' : iInt t0
        ((((normalize day (((k : ℤ) : ℚ) + r / spmAt ((k : ℤ) : ℚ))).1 : ℚ) - 1) * 1440
          + (normalize day (((k : ℤ) : ℚ) + r / spmAt ((k : ℤ) : ℚ))).2 - (t0 : ℚ))
        + (0 : ℚ) = e := by
      rw [htot]
      have hargsum : ((day : ℚ) - 1) * 1440
            + (((k : ℤ) : ℚ) + r / spmAt ((k : ℤ) : ℚ)) - (t0 : ℚ)
          = ((((day - 1) * 1440 + k - t0 : ℤ) : ℚ)) + r / spmAt ((k : ℤ) : ℚ) := by
        push_cast
        ring
      rw [hargsum, hadd, hcancel, hargx]
      linarith
    have hx0' : (t0 : ℚ) ≤
        (((normalize day (((k : ℤ) : ℚ) + r / spmAt ((k : ℤ) : ℚ))).1 : ℚ) - 1) * 1440
          + (normalize day (((k : ℤ) : ℚ) + r / spmAt ((k : ℤ) : ℚ))).2 := by
      rw [htot]
      linarith
    exact ih hrange.1 hrange.2 hint' (le_refl 0) hx0' hinv'

end WebhookBot

theorem pyInt_of_nonneg (q : ℚ) (h : 0 ≤ q) : pyInt q = ⌊q⌋ := by
  unfold pyInt
  rw [if_pos h]

theorem iInt_zero (t0 : ℤ) : iInt t0 0 = 0 := by
  unfold iInt
  rw [Int.floor_zero]
  norm_num [rateSum_zero]

theorem rate_period (t K : ℤ) : rate (t + 1440 * K) = rate t := by
  unfold rate
  congr 1
  exact Int.add_mul_emod_self_left (a := t) (b := 1440) (c := K)

theorem rateSum_period (t K : ℤ) (n : ℕ) :
    rateSum (t + 1440 * K) n = rateSum t n := by
  induction n with
  | zero => rw [rateSum_zero, rateSum_zero]
  | succ k ih =>
    rw [rateSum_succ, rateSum_succ, ih]
    have harg : t + 1440 * K + (k : ℤ) = t + (k : ℤ) + 1440 * K := by ring
    rw [harg, rate_period (t + (k : ℤ)) K]

/-- If both whole-minute prefix sums bracket the elapsed time around `M`,
then the simulation-loop step count is `M` or `M + 1`. -/
theorem steps_sandwich (t0 : ℤ) (e : ℚ) (M : ℕ)
    (h1 : rateSum t0 M ≤ e) (h2 : e ≤ rateSum t0 (M + 1)) :
    M ≤ nSteps e t0 ∧ nSteps e t0 ≤ M + 1 := by
  constructor
  · by_contra hc
    push_neg at hc
    have hlt : rateSum t0 (nSteps e t0) < rateSum t0 M := rateSum_strict_mono t0 hc
    have hle := nSteps_le e t0
    linarith
  · by_cases hz : e ≤ 0
    · rw [nSteps_done e t0 hz]
      omega
    · have hpos : 0 < e := not_le.mp hz
      have hlt := nSteps_lt e t0 hpos
      by_contra hc
      push_neg at hc
      have hstep : M + 1 ≤ nSteps e t0 - 1 := by omega
      have hmono := rateSum_mono t0 hstep
      linarith

namespace WebhookBot

/-- When the piecewise loop consumes all elapsed real time, the output
of `advance_minutes_piecewise` advances the start position by a whole
number `M` of in-game minutes whose cumulative real durations bracket the
elapsed time. -/
theorem advance_exact (start_day start_min : ℤ) (e : ℚ)
    (hm0 : 0 ≤ start_min) (hm1 : start_min < 1440) (he : 0 ≤ e)
    (hfull : (advLoop 200000 start_day ((start_min : ℤ) : ℚ) e).2.2 ≤ 0) :
    ∃ M : ℕ,
      ((advance_minutes_piecewise start_day start_min e).1 - 1) * 1440
          + (advance_minutes_piecewise start_day start_min e).2
        = (start_day - 1) * 1440 + start_min + M ∧
      rateSum ((start_day - 1) * 1440 + start_min) M ≤ e ∧
      e ≤ rateSum ((start_day - 1) * 1440 + start_min) (M + 1) := by
  have h0Q : (0 : ℚ) ≤ ((start_min : ℤ) : ℚ) := by exact_mod_cast hm0
  have h1Q : ((start_min : ℤ) : ℚ) < 1440 := by exact_mod_cast hm1
  have hx0 : (((start_day - 1) * 1440 + start_min : ℤ) : ℚ)
      ≤ ((start_day : ℚ) - 1) * 1440 + ((start_min : ℤ) : ℚ) := by
    push_cast
    linarith
  have hinv : iInt ((start_day - 1) * 1440 + start_min)
      (((start_day : ℚ) - 1) * 1440 + ((start_min : ℤ) : ℚ)
        - (((start_day - 1) * 1440 + start_min : ℤ) : ℚ)) + e = e := by
    have hzero : ((start_day : ℚ) - 1) * 1440 + ((start_min : ℤ) : ℚ)
        - (((start_day - 1) * 1440 + start_min : ℤ) : ℚ) = 0 := by
      push_cast
      ring
    rw [hzero, iInt_zero]
    ring
  obtain ⟨hge, hrnn, hint_eq⟩ := advLoop_exact 200000 start_day ((start_min : ℤ) : ℚ) e
    ((start_day - 1) * 1440 + start_min) e h0Q h1Q (fun _ => ⟨start_min, rfl⟩) he
    hx0 hinv
  have hr0 : (advLoop 200000 start_day ((start_min : ℤ) : ℚ) e).2.2 = 0 :=
    le_antisymm hfull hrnn
  rw [hr0, add_zero] at hint_eq
  have hrange := advLoop_out_range 200000 start_day ((start_min : ℤ) : ℚ) e h0Q h1Q
  have hfl0 : 0 ≤ ⌊(advLoop 200000 start_day ((start_min : ℤ) : ℚ) e).2.1⌋ :=
    Int.floor_nonneg.mpr hrange.1
  have hfl1 : ⌊(advLoop 200000 start_day ((start_min : ℤ) : ℚ) e).2.1⌋ < 1440 := by
    apply Int.floor_lt.mpr
    have : ((1440 : ℤ) : ℚ) = 1440 := by norm_num
    rw [this]
    exact hrange.2
  have hres2 : (advance_minutes_piecewise start_day start_min e).2
      = ⌊(advLoop 200000 start_day ((start_min : ℤ) : ℚ) e).2.1⌋ := by
    show pyInt (advLoop 200000 start_day ((start_min : ℤ) : ℚ) e).2.1 % 1440
      = ⌊(advLoop 200000 start_day ((start_min : ℤ) : ℚ) e).2.1⌋
    rw [pyInt_of_nonneg _ hrange.1]
    exact emod_eq_self _ hfl0 hfl1
  have hres1 : (advance_minutes_piecewise start_day start_min e).1
      = (advLoop 200000 start_day ((start_min : ℤ) : ℚ) e).1 := rfl
  have htotF : totalQ (advLoop 200000 start_day ((start_min : ℤ) : ℚ) e)
      = (((advLoop 200000 start_day ((start_min : ℤ) : ℚ) e).1 : ℚ) - 1) * 1440
        + (advLoop 200000 start_day ((start_min : ℤ) : ℚ) e).2.1 := rfl
  have hxf : totalQ (advLoop 200000 start_day ((start_min : ℤ) : ℚ) e)
        - (((start_day - 1) * 1440 + start_min : ℤ) : ℚ)
      = (advLoop 200000 start_day ((start_min : ℤ) : ℚ) e).2.1
        + ((((advLoop 200000 start_day ((start_min : ℤ) : ℚ) e).1 - 1) * 1440
            - ((start_day - 1) * 1440 + start_min) : ℤ) : ℚ) := by
    rw [htotF]
    push_cast
    ring
  have hflx : ⌊totalQ (advLoop 200000 start_day ((start_min : ℤ) : ℚ) e)
        - (((start_day - 1) * 1440 + start_min : ℤ) : ℚ)⌋
      = ⌊(advLoop 200000 start_day ((start_min : ℤ) : ℚ) e).2.1⌋
        + (((advLoop 200000 start_day ((start_min : ℤ) : ℚ) e).1 - 1) * 1440
            - ((start_day - 1) * 1440 + start_min)) := by
    rw [hxf, Int.floor_add_int]
  have hx0' : 0 ≤ totalQ (advLoop 200000 start_day ((start_min : ℤ) : ℚ) e)
      - (((start_day - 1) * 1440 + start_min : ℤ) : ℚ) := by linarith
  have hMnn : 0 ≤ ⌊(advLoop 200000 start_day ((start_min : ℤ) : ℚ) e).2.1⌋
      + (((advLoop 200000 start_day ((start_min : ℤ) : ℚ) e).1 - 1) * 1440
          - ((start_day - 1) * 1440 + start_min)) := by
    rw [← hflx]
    exact Int.floor_nonneg.mpr hx0'
  have hsand := iInt_sandwich ((start_day - 1) * 1440 + start_min)
    (totalQ (advLoop 200000 start_day ((start_min : ℤ) : ℚ) e)
      - (((start_day - 1) * 1440 + start_min : ℤ) : ℚ)) hx0'
  rw [hint_eq, hflx] at hsand
  refine ⟨(⌊(advLoop 200000 start_day ((start_min : ℤ) : ℚ) e).2.1⌋
    + (((advLoop 200000 start_day ((start_min : ℤ) : ℚ) e).1 - 1) * 1440
        - ((start_day - 1) * 1440 + start_min))).toNat, ?_, ?_, ?_⟩
  · rw [hres1, hres2]
    omega
  · exact hsand.1
  · exact hsand.2

end WebhookBot

/-- Integer floor-division/modulus bookkeeping for a minute of day. -/
theorem hour_minute_range (m : ℤ) (h0 : 0 ≤ m) (h1 : m < 1440) :
    0 ≤ m / 60 ∧ m / 60 ≤ 23 ∧ 0 ≤ m % 60 ∧
      m % 60 ≤ 59 ∧ m / 60 * 60 + m % 60 = m := by
  have hsplit := Int.ediv_add_emod m 60
  have hnn := Int.emod_nonneg m (by norm_num : (60 : ℤ) ≠ 0)
  have hlt := Int.emod_lt_of_pos m (by norm_num : (0 : ℤ) < 60)
  omega

namespace WebhookBot

theorem calculate_time_none (now : ℚ) : calculate_time none now = none := rfl

theorem calculate_time_some (st : TimeState) (now : ℚ) :
    calculate_time (some st) now = some
      { day := (roll_year (advance_minutes_piecewise st.day (st.hour * 60 + st.minute)
          (now - st.real_epoch)).1 st.year).1,
        year := (roll_year (advance_minutes_piecewise st.day (st.hour * 60 + st.minute)
          (now - st.real_epoch)).1 st.year).2,
        hour := (advance_minutes_piecewise st.day (st.hour * 60 + st.minute)
          (now - st.real_epoch)).2 / 60,
        minute := (advance_minutes_piecewise st.day (st.hour * 60 + st.minute)
          (now - st.real_epoch)).2 % 60,
        minute_of_day := (advance_minutes_piecewise st.day (st.hour * 60 + st.minute)
          (now - st.real_epoch)).2,
        isDay := is_day (advance_minutes_piecewise st.day (st.hour * 60 + st.minute)
          (now - st.real_epoch)).2 } := rfl

/-- The two components of `advance_minutes_piecewise` in terms of the
underlying loop, for a start minute in range. -/
theorem advance_parts (start_day start_min : ℤ) (e : ℚ)
    (hm0 : 0 ≤ start_min) (hm1 : start_min < 1440) :
    (advance_minutes_piecewise start_day start_min e).1
      = (advLoop 200000 start_day ((start_min : ℤ) : ℚ) e).1 ∧
    (advance_minutes_piecewise start_day start_min e).2
      = ⌊(advLoop 200000 start_day ((start_min : ℤ) : ℚ) e).2.1⌋ ∧
    0 ≤ (advance_minutes_piecewise start_day start_min e).2 ∧
    (advance_minutes_piecewise start_day start_min e).2 < 1440 := by
  have h0Q : (0 : ℚ) ≤ ((start_min : ℤ) : ℚ) := by exact_mod_cast hm0
  have h1Q : ((start_min : ℤ) : ℚ) < 1440 := by exact_mod_cast hm1
  have hrange := advLoop_out_range 200000 start_day ((start_min : ℤ) : ℚ) e h0Q h1Q
  have hfl0 : 0 ≤ ⌊(advLoop 200000 start_day ((start_min : ℤ) : ℚ) e).2.1⌋ :=
    Int.floor_nonneg.mpr hrange.1
  have hfl1 : ⌊(advLoop 200000 start_day ((start_min : ℤ) : ℚ) e).2.1⌋ < 1440 := by
    apply Int.floor_lt.mpr
    have hc : ((1440 : ℤ) : ℚ) = 1440 := by norm_num
    rw [hc]
    exact hrange.2
  have h2 : (advance_minutes_piecewise start_day start_min e).2
      = ⌊(advLoop 200000 start_day ((start_min : ℤ) : ℚ) e).2.1⌋ := by
    show pyInt (advLoop 200000 start_day ((start_min : ℤ) : ℚ) e).2.1 % 1440
      = ⌊(advLoop 200000 start_day ((start_min : ℤ) : ℚ) e).2.1⌋
    rw [pyInt_of_nonneg _ hrange.1]
    exact emod_eq_self _ hfl0 hfl1
  exact ⟨rfl, h2, by omega, by omega⟩

/-- `advance_minutes_piecewise` with no elapsed time returns the start. -/
theorem advance_zero (d m : ℤ) (h0 : 0 ≤ m) (h1 : m < 1440) :
    advance_minutes_piecewise d m 0 = (d, m) := by
  show ((advLoop 200000 d ((m : ℤ) : ℚ) 0).1,
    pyInt (advLoop 200000 d ((m : ℤ) : ℚ) 0).2.1 % 1440) = (d, m)
  rw [advLoop_done _ _ _ _ (le_refl 0)]
  show (d, pyInt ((m : ℤ) : ℚ) % 1440) = (d, m)
  rw [pyInt_intCast, emod_eq_self m h0 h1]

/-- Concrete boundary value: a night minute at or after sunset. -/
theorem nb_eval_night_late (d m : ℤ) (h1050 : 1050 ≤ m) (h1 : m < 1440) :
    next_boundary_total_minutes d ((m : ℤ) : ℚ) = ((d * 1440 + 330 : ℤ) : ℚ) := by
  have hmod : pyInt ((m : ℤ) : ℚ) % 1440 = m := by
    rw [pyInt_intCast]
    exact emod_eq_self m (by omega) h1
  simp only [next_boundary_total_minutes]
  rw [hmod]
  split_ifs with h1' h2' h3' h4' h5'
  · exfalso
    rw [is_day_iff] at h1'
    omega
  · exfalso
    rw [is_day_iff] at h1'
    omega
  · exfalso
    rw [day_start_val] at h3'
    omega
  · exfalso
    rw [day_start_val] at h3'
    omega
  · exfalso
    rw [day_start_cast] at h5'
    have hq : (m : ℚ) < 1440 := by exact_mod_cast h1
    linarith
  · rw [day_start_cast]
    push_cast
    ring

/-- Concrete boundary value: a night minute before sunrise. -/
theorem nb_eval_night_early (d m : ℤ) (h0 : 0 ≤ m) (hlt : m < 330) :
    next_boundary_total_minutes d ((m : ℤ) : ℚ) = (((d - 1) * 1440 + 330 : ℤ) : ℚ) := by
  have hmod : pyInt ((m : ℤ) : ℚ) % 1440 = m := by
    rw [pyInt_intCast]
    exact emod_eq_self m h0 (by omega)
  simp only [next_boundary_total_minutes]
  rw [hmod]
  split_ifs with h1' h2' h3' h4' h5'
  · exfalso
    rw [is_day_iff] at h1'
    omega
  · exfalso
    rw [is_day_iff] at h1'
    omega
  · exfalso
    rw [day_start_cast] at h4'
    have hq : (m : ℚ) < 330 := by exact_mod_cast hlt
    linarith
  · rw [day_start_cast]
    push_cast
    ring
  · exfalso
    rw [day_start_val] at h3'
    omega
  · exfalso
    rw [day_start_val] at h3'
    omega

/-- Concrete boundary value: a day minute. -/
theorem nb_eval_day (d m : ℤ) (h330 : 330 ≤ m) (hlt : m < 1050) :
    next_boundary_total_minutes d ((m : ℤ) : ℚ) = (((d - 1) * 1440 + 1050 : ℤ) : ℚ) := by
  have hmod : pyInt ((m : ℤ) : ℚ) % 1440 = m := by
    rw [pyInt_intCast]
    exact emod_eq_self m (by omega) (by omega)
  simp only [next_boundary_total_minutes]
  rw [hmod]
  split_ifs with h1' h2' h3' h4' h5'
  · exfalso
    rw [day_end_cast] at h2'
    have hq : (m : ℚ) < 1050 := by exact_mod_cast hlt
    linarith
  · rw [day_end_cast]
    push_cast
    ring
  · exfalso
    rw [is_day_iff] at h1'
    omega
  · exfalso
    rw [is_day_iff] at h1'
    omega
  · exfalso
    rw [is_day_iff] at h1'
    omega
  · exfalso
    rw [is_day_iff] at h1'
    omega

/-- One partial iteration of the piecewise loop: when the elapsed time is
less than the real time to the next boundary, the loop advances
fractionally once and stops. -/
theorem advLoop_one_partial (d m : ℤ) (e : ℚ) (hm0 : 0 ≤ m) (hm1 : m < 1440)
    (hepos : 0 < e) (B : ℤ)
    (hB : next_boundary_total_minutes d ((m : ℤ) : ℚ) = (B : ℚ))
    (hBgt : (d - 1) * 1440 + m < B) (σ : ℚ) (hσ : seconds_per_minute m = σ)
    (hlt : e < ((B - ((d - 1) * 1440 + m) : ℤ) : ℚ) * σ) :
    advLoop 200000 d ((m : ℤ) : ℚ) e
      = ((normalize d (((m : ℤ) : ℚ) + e / σ)).1,
         (normalize d (((m : ℤ) : ℚ) + e / σ)).2, 0) := by
  have hσpos : 0 < σ := hσ ▸ seconds_per_minute_pos m
  have hspmAt : spmAt ((m : ℤ) : ℚ) = σ := by
    rw [spmAt_intCast m hm0 hm1, hσ]
  have hminsv : 0 < B - ((d - 1) * 1440 + m) := by omega
  have hmins : minsUB d ((m : ℤ) : ℚ) = ((B - ((d - 1) * 1440 + m) : ℤ) : ℚ) := by
    unfold minsUB
    rw [hB]
    have harg : (B : ℚ) - (((d : ℚ) - 1) * 1440 + ((m : ℤ) : ℚ))
        = ((B - ((d - 1) * 1440 + m) : ℤ) : ℚ) := by
      push_cast
      ring
    rw [harg, max_eq_right (by exact_mod_cast le_of_lt hminsv)]
  have hsecs : secsUB d ((m : ℤ) : ℚ) = ((B - ((d - 1) * 1440 + m) : ℤ) : ℚ) * σ := by
    unfold secsUB
    rw [hmins, hspmAt]
  have hcond : ¬ (0 < secsUB d ((m : ℤ) : ℚ) ∧ secsUB d ((m : ℤ) : ℚ) ≤ e) := by
    rw [hsecs]
    rintro ⟨-, hle⟩
    linarith
  rw [ advLoop_step_partial 200000 d ((m : ℤ) : ℚ) e (by norm_num)
    (by linarith) hcond, hspmAt]
  rw [advLoop_done _ _ _ _ (le_refl 0)]

end WebhookBot

namespace TimeBot

theorem snapshot_none (now : ℚ) : calculate_time_snapshot none now = none := rfl

theorem snapshot_some (st : TimeState) (now : ℚ) :
    calculate_time_snapshot (some st) now = some
      { year := (simLoop (now - st.epoch)
          ⟨st.hour * 60 + st.minute, st.day, st.year⟩).year,
        day := (simLoop (now - st.epoch)
          ⟨st.hour * 60 + st.minute, st.day, st.year⟩).day,
        hour := (simLoop (now - st.epoch)
          ⟨st.hour * 60 + st.minute, st.day, st.year⟩).minute_of_day / 60,
        minute := (simLoop (now - st.epoch)
          ⟨st.hour * 60 + st.minute, st.day, st.year⟩).minute_of_day % 60,
        minute_of_day := (simLoop (now - st.epoch)
          ⟨st.hour * 60 + st.minute, st.day, st.year⟩).minute_of_day,
        isDay := is_day (simLoop (now - st.epoch)
          ⟨st.hour * 60 + st.minute, st.day, st.year⟩).minute_of_day } := rfl

theorem validSim_of_state (st : TimeState) (hv : ValidState st) :
    ValidSim ⟨st.hour * 60 + st.minute, st.day, st.year⟩ := by
  obtain ⟨h1, h2, h3, h4, h5, h6, h7⟩ := hv
  exact validSim_mk _ _ _ (by omega) (by omega) h2 h3 h1

/-- Evaluation helper: a snapshot query is determined by the simulation
loop's result. -/
theorem snapshot_eval (ep : ℚ) (y d h mi : ℤ) (now : ℚ) (res : SimState)
    (hs : simLoop (now - ep) ⟨h * 60 + mi, d, y⟩ = res) :
    calculate_time_snapshot (some ⟨ep, y, d, h, mi⟩) now
      = some ⟨res.year, res.day, res.minute_of_day / 60, res.minute_of_day % 60,
              res.minute_of_day, is_day res.minute_of_day⟩ := by
  show (some ⟨(simLoop (now - ep) ⟨h * 60 + mi, d, y⟩).year,
      (simLoop (now - ep) ⟨h * 60 + mi, d, y⟩).day,
      (simLoop (now - ep) ⟨h * 60 + mi, d, y⟩).minute_of_day / 60,
      (simLoop (now - ep) ⟨h * 60 + mi, d, y⟩).minute_of_day % 60,
      (simLoop (now - ep) ⟨h * 60 + mi, d, y⟩).minute_of_day,
      is_day (simLoop (now - ep) ⟨h * 60 + mi, d, y⟩).minute_of_day⟩
    : Option Snapshot) = _
  rw [hs]

theorem totalSnap_mk (y d h m mod : ℤ) (b : Bool) :
    totalSnap ⟨y, d, h, m, mod, b⟩
      = ((y - 1) * 365 + (d - 1)) * 1440 + h * 60 + m := rfl

/-- The absolute minute count of a snapshot equals the simulation loop's
state count. -/
theorem totalSnap_eq (st : TimeState) (now : ℚ) (hv : ValidState st) :
    ∀ t, calculate_time_snapshot (some st) now = some t →
      totalSnap t = totalMin (simLoop (now - st.epoch)
        ⟨st.hour * 60 + st.minute, st.day, st.year⟩) := by
  intro t ht
  rw [snapshot_some] at ht
  have heq := Option.some.inj ht
  subst heq
  have hvr := simLoop_valid (now - st.epoch) _ (validSim_of_state st hv)
  obtain ⟨w1, w2, w3, w4, w5⟩ := hvr
  have hhm := hour_minute_range
    ((simLoop (now - st.epoch) ⟨st.hour * 60 + st.minute, st.day, st.year⟩).minute_of_day)
    w1 (by omega)
  rw [totalSnap_mk]
  unfold totalMin
  omega

end TimeBot

namespace WebhookBot

/-- Evaluation helper: a clock query is determined by
`advance_minutes_piecewise` and `roll_year`. -/
theorem calculate_time_eval (ep : ℚ) (y d h mi : ℤ) (now : ℚ)
    (adv : ℤ × ℤ) (ry : ℤ × ℤ)
    (ha : advance_minutes_piecewise d (h * 60 + mi) (now - ep) = adv)
    (hr : roll_year adv.1 y = ry) :
    calculate_time (some ⟨ep, y, d, h, mi⟩) now
      = some ⟨ry.1, ry.2, adv.2 / 60, adv.2 % 60, adv.2, is_day adv.2⟩ := by
  show (some ⟨(roll_year (advance_minutes_piecewise d (h * 60 + mi) (now - ep)).1 y).1,
      (roll_year (advance_minutes_piecewise d (h * 60 + mi) (now - ep)).1 y).2,
      (advance_minutes_piecewise d (h * 60 + mi) (now - ep)).2 / 60,
      (advance_minutes_piecewise d (h * 60 + mi) (now - ep)).2 % 60,
      (advance_minutes_piecewise d (h * 60 + mi) (now - ep)).2,
      is_day (advance_minutes_piecewise d (h * 60 + mi) (now - ep)).2⟩
    : Option TimeInfo) = _
  rw [ha, hr]

/-- Evaluation helper for `advance_minutes_piecewise` from an evaluated
loop state. -/
theorem advance_eval (d m : ℤ) (e : ℚ) (A : ℤ × ℚ × ℚ) (mz : ℤ)
    (hA : advLoop 200000 d ((m : ℤ) : ℚ) e = A)
    (hm : pyInt A.2.1 % 1440 = mz) :
    advance_minutes_piecewise d m e = (A.1, mz) := by
  show ((advLoop 200000 d ((m : ℤ) : ℚ) e).1,
    pyInt (advLoop 200000 d ((m : ℤ) : ℚ) e).2.1 % 1440) = (A.1, mz)
  rw [hA, hm]

theorem totalInfo_mk (d y h m mod : ℤ) (b : Bool) :
    totalInfo ⟨d, y, h, m, mod, b⟩
      = ((y - 1) * 365 + (d - 1)) * 1440 + h * 60 + m := rfl

theorem totalQ_floor (t : ℤ × ℚ × ℚ) : ⌊totalQ t⌋ = (t.1 - 1) * 1440 + ⌊t.2.1⌋ := by
  have hsplit : totalQ t = t.2.1 + (((t.1 - 1) * 1440 : ℤ) : ℚ) := by
    unfold totalQ
    push_cast
    ring
  rw [hsplit, Int.floor_add_int]
  omega

/-- The absolute minute count of a derived time in terms of the
underlying loop state. -/
theorem totalInfo_eq (st : TimeState) (now : ℚ) (hv : ValidState st) :
    ∀ i, calculate_time (some st) now = some i →
      totalInfo i = ((st.year - 1) * 365
          + ((advLoop 200000 st.day ((st.hour * 60 + st.minute : ℤ) : ℚ)
              (now - st.real_epoch)).1 - 1)) * 1440
        + ⌊(advLoop 200000 st.day ((st.hour * 60 + st.minute : ℤ) : ℚ)
            (now - st.real_epoch)).2.1⌋ := by
  intro i hi
  rw [calculate_time_some] at hi
  have heq := Option.some.inj hi
  subst heq
  obtain ⟨v1, v2, v3, v4, v5, v6, v7⟩ := hv
  have hparts := advance_parts st.day (st.hour * 60 + st.minute) (now - st.real_epoch)
    (by omega) (by omega)
  obtain ⟨hp1, hp2, hp3, hp4⟩ := hparts
  have hhm := hour_minute_range
    ((advance_minutes_piecewise st.day (st.hour * 60 + st.minute)
      (now - st.real_epoch)).2) hp3 (by omega)
  have hry := roll_year_total
    (advance_minutes_piecewise st.day (st.hour * 60 + st.minute) (now - st.real_epoch)).1
    st.year
  rw [totalInfo_mk, ← hp1, ← hp2]
  omega

end WebhookBot

namespace TimeBot

theorem spm_eq_rate (m : ℤ) (h0 : 0 ≤ m) (h1 : m < 1440) : spm m = rate m := by
  unfold rate
  rw [emod_eq_self m h0 h1]
  rfl

theorem simLoop_total_eq (r : ℚ) (s : SimState) (hv : ValidSim s) :
    totalMin (simLoop r s) = totalMin s + nSteps r (totalMin s) := by
  induction r, s using simLoop.induct with
  | case1 r s h =>
    rw [simLoop_done r s h, nSteps_done _ _ h]
    omega
  | case2 r s h1 r' m' h2 d' h3 ih =>
    obtain ⟨v1, v2, v3, v4, v5⟩ := hv
    have er : r' = r - spm s.minute_of_day := rfl
    rw [er] at ih
    rw [simLoop_step_wrap_year r s h1 h2 h3]
    have hnext := ih (validSim_mk _ _ _ (by omega) (by omega) (by omega) (by omega)
      (by omega))
    have hmod : totalMin s % 1440 = s.minute_of_day := by
      have hsplit : totalMin s
          = s.minute_of_day + 1440 * ((s.year - 1) * 365 + (s.day - 1)) := by
        unfold totalMin
        ring
      rw [hsplit]
      exact emod_total _ _ v1 v2
    have hrate : spm s.minute_of_day = rate (totalMin s) := by
      unfold rate
      rw [hmod]
      rfl
    have heq : totalMin (⟨0, 1, s.year + 1⟩ : SimState) = totalMin s + 1 := by
      rw [totalMin_mk]
      have hm : s.minute_of_day = 1439 := by omega
      have hd : s.day = 365 := by omega
      unfold totalMin
      rw [hm, hd]
      ring
    rw [heq] at hnext
    rw [nSteps_step r (totalMin s) h1, hnext, hrate]
    omega
  | case3 r s h1 r' m' h2 d' h3 ih =>
    obtain ⟨v1, v2, v3, v4, v5⟩ := hv
    have er : r' = r - spm s.minute_of_day := rfl
    have ed : d' = s.day + 1 := rfl
    rw [er, ed] at ih
    rw [simLoop_step_wrap_day r s h1 h2 h3]
    have hnext := ih (validSim_mk _ _ _ (by omega) (by omega) (by omega) (by omega) v5)
    have hmod : totalMin s % 1440 = s.minute_of_day := by
      have hsplit : totalMin s
          = s.minute_of_day + 1440 * ((s.year - 1) * 365 + (s.day - 1)) := by
        unfold totalMin
        ring
      rw [hsplit]
      exact emod_total _ _ v1 v2
    have hrate : spm s.minute_of_day = rate (totalMin s) := by
      unfold rate
      rw [hmod]
      rfl
    have heq : totalMin (⟨0, s.day + 1, s.year⟩ : SimState) = totalMin s + 1 := by
      rw [totalMin_mk]
      have hm : s.minute_of_day = 1439 := by omega
      unfold totalMin
      rw [hm]
      ring
    rw [heq] at hnext
    rw [nSteps_step r (totalMin s) h1, hnext, hrate]
    omega
  | case4 r s h1 r' m' h2 ih =>
    obtain ⟨v1, v2, v3, v4, v5⟩ := hv
    have er : r' = r - spm s.minute_of_day := rfl
    have em : m' = s.minute_of_day + 1 := rfl
    rw [er, em] at ih
    rw [simLoop_step_mid r s h1 h2]
    have hnext := ih (validSim_mk _ _ _ (by omega) (by omega) v3 v4 v5)
    have hmod : totalMin s % 1440 = s.minute_of_day := by
      have hsplit : totalMin s
          = s.minute_of_day + 1440 * ((s.year - 1) * 365 + (s.day - 1)) := by
        unfold totalMin
        ring
      rw [hsplit]
      exact emod_total _ _ v1 v2
    have hrate : spm s.minute_of_day = rate (totalMin s) := by
      unfold rate
      rw [hmod]
      rfl
    have heq : totalMin (⟨s.minute_of_day + 1, s.day, s.year⟩ : SimState)
        = totalMin s + 1 := by
      rw [totalMin_mk]
      unfold totalMin
      ring
    rw [heq] at hnext
    rw [nSteps_step r (totalMin s) h1, hnext, hrate]
    omega

end TimeBot

/-! ### Concrete evaluations for the golden-value claims -/

namespace TimeBot

theorem is_dayT_iff (m : ℤ) : is_day m = true ↔ 330 ≤ m ∧ m < 1050 := by
  unfold is_day SUNRISE SUNSET
  norm_num

theorem spmT_day (m : ℤ) (h : 330 ≤ m ∧ m < 1050) : spm m = DAY_SPM := by
  unfold spm
  rw [if_pos ((is_dayT_iff m).mpr h)]

theorem spmT_night (m : ℤ) (h : ¬ (330 ≤ m ∧ m < 1050)) : spm m = NIGHT_SPM := by
  unfold spm
  rw [if_neg (fun hc => h ((is_dayT_iff m).mp hc))]

/-- TimeBot on the year-rollover example: calibrated at year 1, day 365,
23:59, after 8.09 real seconds (two night minutes) the snapshot is
year 2, day 1, 00:01. -/
theorem tb_eval_c3 (T0 : ℚ) :
    calculate_time_snapshot (some ⟨T0, 1, 365, 23, 59⟩) (T0 + 809 / 100)
      = some ⟨2, 1, 0, 1, 1, false⟩ := by
  have hs : simLoop (T0 + 809 / 100 - T0) ⟨23 * 60 + 59, 365, 1⟩ = ⟨1, 1, 2⟩ := by
    have e0 : (T0 + 809 / 100 - T0 : ℚ) = 809 / 100 := by ring
    rw [e0]
    rw [simLoop_step_wrap_year (809 / 100) ⟨23 * 60 + 59, 365, 1⟩
      (by norm_num) (by decide) (by decide)]
    show simLoop ((809 / 100 : ℚ) - spm 1439) ⟨0, 1, 2⟩ = ⟨1, 1, 2⟩
    rw [spmT_night 1439 (by omega)]
    have e1 : (809 / 100 : ℚ) - NIGHT_SPM = 4045 / 1000 := by
      unfold NIGHT_SPM
      norm_num
    rw [e1]
    rw [simLoop_step_mid (4045 / 1000) ⟨0, 1, 2⟩ (by norm_num) (by decide)]
    show simLoop ((4045 / 1000 : ℚ) - spm 0) ⟨1, 1, 2⟩ = ⟨1, 1, 2⟩
    rw [spmT_night 0 (by omega)]
    have e2 : (4045 / 1000 : ℚ) - NIGHT_SPM = 0 := by
      unfold NIGHT_SPM
      norm_num
    rw [e2]
    exact simLoop_done _ _ le_rfl
  exact (snapshot_eval T0 1 365 23 59 (T0 + 809 / 100) ⟨1, 1, 2⟩ hs).trans (by decide)

/-- TimeBot on the sunrise-boundary example: calibrated at year 2,
day 103, 05:30, after one day-rate real minute the snapshot is 05:31 of
the same day, daytime. -/
theorem tb_eval_c4 (T0 : ℚ) :
    calculate_time_snapshot (some ⟨T0, 2, 103, 5, 30⟩)
        (T0 + 47666667 / 10000000)
      = some ⟨2, 103, 5, 31, 331, true⟩ := by
  have hs : simLoop (T0 + 47666667 / 10000000 - T0) ⟨5 * 60 + 30, 103, 2⟩
      = ⟨331, 103, 2⟩ := by
    have e0 : (T0 + 47666667 / 10000000 - T0 : ℚ) = 47666667 / 10000000 := by ring
    rw [e0]
    rw [simLoop_step_mid (47666667 / 10000000) ⟨5 * 60 + 30, 103, 2⟩
      (by norm_num) (by decide)]
    show simLoop ((47666667 / 10000000 : ℚ) - spm 330) ⟨331, 103, 2⟩ = ⟨331, 103, 2⟩
    rw [spmT_day 330 (by omega)]
    have e1 : (47666667 / 10000000 : ℚ) - DAY_SPM = 0 := by
      unfold DAY_SPM
      norm_num
    rw [e1]
    exact simLoop_done _ _ le_rfl
  exact (snapshot_eval T0 2 103 5 30 (T0 + 47666667 / 10000000)
    ⟨331, 103, 2⟩ hs).trans (by decide)

end TimeBot

namespace WebhookBot

theorem pyInt_one_mod : pyInt (1 : ℚ) % 1440 = 1 := by
  have e : (1 : ℚ) = ((1 : ℤ) : ℚ) := by norm_num
  rw [e, pyInt_intCast]
  decide

theorem pyInt_threethirtyone_mod : pyInt (331 : ℚ) % 1440 = 331 := by
  have e : (331 : ℚ) = ((331 : ℤ) : ℚ) := by norm_num
  rw [e, pyInt_intCast]
  decide

/-- WebhookBot on the year-rollover example: calibrated at year 1,
day 365, 23:59, after 8.09 real seconds the derived time is year 2,
day 1, 00:01. -/
theorem wb_eval_c3 (T0 : ℚ) :
    calculate_time (some ⟨T0, 1, 365, 23, 59⟩) (T0 + 809 / 100)
      = some ⟨1, 2, 0, 1, 1, false⟩ := by
  have hσ : seconds_per_minute 1439 = NIGHT_SECONDS_PER_INGAME_MINUTE :=
    spm_night 1439 (by omega)
  have hB : next_boundary_total_minutes 365 ((1439 : ℤ) : ℚ)
      = ((365 * 1440 + 330 : ℤ) : ℚ) :=
    nb_eval_night_late 365 1439 (by omega) (by omega)
  have hlt : (809 / 100 : ℚ) <
      ((365 * 1440 + 330 - ((365 - 1) * 1440 + 1439) : ℤ) : ℚ)
        * NIGHT_SECONDS_PER_INGAME_MINUTE := by
    unfold NIGHT_SECONDS_PER_INGAME_MINUTE
    push_cast
    norm_num
  have hA := advLoop_one_partial 365 1439 (809 / 100) (by omega) (by omega)
    (by norm_num) (365 * 1440 + 330) hB (by omega)
    NIGHT_SECONDS_PER_INGAME_MINUTE hσ hlt
  have hnorm : normalize 365
      (((1439 : ℤ) : ℚ) + 809 / 100 / NIGHT_SECONDS_PER_INGAME_MINUTE)
      = (366, 1) := by
    have harg : ((1439 : ℤ) : ℚ) + 809 / 100 / NIGHT_SECONDS_PER_INGAME_MINUTE
        = 1441 := by
      unfold NIGHT_SECONDS_PER_INGAME_MINUTE
      push_cast
      norm_num
    rw [harg, normalize_ge 365 1441 (by norm_num)]
    have harg2 : (1441 : ℚ) - 1440 = 1 := by norm_num
    rw [harg2]
    exact normalize_lt 366 1 (by norm_num)
  have hA2 : advLoop 200000 365 ((1439 : ℤ) : ℚ) (809 / 100) = (366, 1, 0) := by
    rw [hA, hnorm]
  have hadv : advance_minutes_piecewise 365 (23 * 60 + 59) (T0 + 809 / 100 - T0)
      = (366, 1) := by
    have e0 : (T0 + 809 / 100 - T0 : ℚ) = 809 / 100 := by ring
    rw [e0]
    exact advance_eval 365 (23 * 60 + 59) (809 / 100) (366, 1, 0) 1 hA2 pyInt_one_mod
  have hry : roll_year 366 1 = (1, 2) := by
    rw [roll_year_gt 366 1 (by omega)]
    show roll_year 1 2 = (1, 2)
    exact roll_year_le 1 2 (by omega)
  exact (calculate_time_eval T0 1 365 23 59 (T0 + 809 / 100) (366, 1) (1, 2)
    hadv hry).trans (by decide)

/-- WebhookBot on the sunrise-boundary example: calibrated at year 2,
day 103, 05:30, after one day-rate real minute the derived time is 05:31
of the same day, daytime. -/
theorem wb_eval_c4 (T0 : ℚ) :
    calculate_time (some ⟨T0, 2, 103, 5, 30⟩) (T0 + 47666667 / 10000000)
      = some ⟨103, 2, 5, 31, 331, true⟩ := by
  have hσ : seconds_per_minute 330 = DAY_SECONDS_PER_INGAME_MINUTE :=
    spm_day 330 (by omega)
  have hB : next_boundary_total_minutes 103 ((330 : ℤ) : ℚ)
      = (((103 - 1) * 1440 + 1050 : ℤ) : ℚ) :=
    nb_eval_day 103 330 (by omega) (by omega)
  have hlt : (47666667 / 10000000 : ℚ) <
      (((103 - 1) * 1440 + 1050 - ((103 - 1) * 1440 + 330) : ℤ) : ℚ)
        * DAY_SECONDS_PER_INGAME_MINUTE := by
    unfold DAY_SECONDS_PER_INGAME_MINUTE
    push_cast
    norm_num
  have hA := advLoop_one_partial 103 330 (47666667 / 10000000) (by omega) (by omega)
    (by norm_num) ((103 - 1) * 1440 + 1050) hB (by omega)
    DAY_SECONDS_PER_INGAME_MINUTE hσ hlt
  have hnorm : normalize 103
      (((330 : ℤ) : ℚ) + 47666667 / 10000000 / DAY_SECONDS_PER_INGAME_MINUTE)
      = (103, 331) := by
    have harg : ((330 : ℤ) : ℚ) + 47666667 / 10000000 / DAY_SECONDS_PER_INGAME_MINUTE
        = 331 := by
      unfold DAY_SECONDS_PER_INGAME_MINUTE
      push_cast
      norm_num
    rw [harg]
    exact normalize_lt 103 331 (by norm_num)
  have hA2 : advLoop 200000 103 ((330 : ℤ) : ℚ) (47666667 / 10000000)
      = (103, 331, 0) := by
    rw [hA, hnorm]
  have hadv : advance_minutes_piecewise 103 (5 * 60 + 30)
      (T0 + 47666667 / 10000000 - T0) = (103, 331) := by
    have e0 : (T0 + 47666667 / 10000000 - T0 : ℚ) = 47666667 / 10000000 := by ring
    rw [e0]
    exact advance_eval 103 (5 * 60 + 30) (47666667 / 10000000) (103, 331, 0) 331
      hA2 pyInt_threethirtyone_mod
  have hry : roll_year 103 2 = (103, 2) := roll_year_le 103 2 (by omega)
  exact (calculate_time_eval T0 2 103 5 30 (T0 + 47666667 / 10000000)
    (103, 331) (103, 2) hadv hry).trans (by decide)

end WebhookBot

/-! ### Claim theorems -/

/-- C9: if no calibration has ever been set, every clock query returns
`none` (the `Uncalibrated` sentinel) instead of a derived time, in both
implementations; under any valid calibration the query returns a derived
time (never fails). -/
theorem claim_C9 :
    (∀ now : ℚ, TimeBot.calculate_time_snapshot none now = none) ∧
    (∀ now : ℚ, WebhookBot.calculate_time none now = none) ∧
    (∀ (st : TimeBot.TimeState) (now : ℚ), TimeBot.ValidState st →
      (TimeBot.calculate_time_snapshot (some st) now).isSome = true) ∧
    (∀ (st : WebhookBot.TimeState) (now : ℚ), WebhookBot.ValidState st →
      (WebhookBot.calculate_time (some st) now).isSome = true) :=
  ⟨fun _ => rfl, fun _ => rfl, fun _ _ _ => rfl, fun _ _ _ => rfl⟩

/-- Witness for C9 at a concrete calibration. -/
theorem claim_C9_witness :
    TimeBot.ValidState ⟨0, 1, 1, 0, 0⟩ ∧
    (TimeBot.calculate_time_snapshot (some ⟨0, 1, 1, 0, 0⟩) 5).isSome = true ∧
    WebhookBot.ValidState ⟨0, 1, 1, 0, 0⟩ ∧
    (WebhookBot.calculate_time (some ⟨0, 1, 1, 0, 0⟩) 5).isSome = true := by
  have hvT : TimeBot.ValidState ⟨0, 1, 1, 0, 0⟩ := by
    unfold TimeBot.ValidState; decide
  have hvW : WebhookBot.ValidState ⟨0, 1, 1, 0, 0⟩ := by
    unfold WebhookBot.ValidState; decide
  exact ⟨hvT, claim_C9.2.2.1 _ 5 hvT, hvW, claim_C9.2.2.2 _ 5 hvW⟩

/-- C10: under a valid calibration and non-negative elapsed time, the
derived time of either implementation satisfies `hour ∈ [0,23]`,
`minute ∈ [0,59]`, `minute-of-day ∈ [0,1439]` and `dayOfYear ∈ [1,365]`. -/
theorem claim_C10 :
    (∀ (st : TimeBot.TimeState) (now : ℚ), TimeBot.ValidState st →
      0 ≤ now - st.epoch →
      ∀ t, TimeBot.calculate_time_snapshot (some st) now = some t →
        0 ≤ t.hour ∧ t.hour ≤ 23 ∧ 0 ≤ t.minute ∧ t.minute ≤ 59 ∧
        0 ≤ t.minute_of_day ∧ t.minute_of_day ≤ 1439 ∧
        1 ≤ t.day ∧ t.day ≤ 365) ∧
    (∀ (st : WebhookBot.TimeState) (now : ℚ), WebhookBot.ValidState st →
      0 ≤ now - st.real_epoch →
      ∀ t, WebhookBot.calculate_time (some st) now = some t →
        0 ≤ t.hour ∧ t.hour ≤ 23 ∧ 0 ≤ t.minute ∧ t.minute ≤ 59 ∧
        0 ≤ t.minute_of_day ∧ t.minute_of_day ≤ 1439 ∧
        1 ≤ t.day ∧ t.day ≤ 365) := by
  constructor
  · intro st now hv _ t ht
    rw [TimeBot.snapshot_some] at ht
    have heq := Option.some.inj ht
    subst heq
    have hvr := TimeBot.simLoop_valid (now - st.epoch) _ (TimeBot.validSim_of_state st hv)
    obtain ⟨w1, w2, w3, w4, w5⟩ := hvr
    have hhm := hour_minute_range
      ((TimeBot.simLoop (now - st.epoch)
        ⟨st.hour * 60 + st.minute, st.day, st.year⟩).minute_of_day) w1 (by omega)
    dsimp only
    omega
  · intro st now hv _ t ht
    rw [WebhookBot.calculate_time_some] at ht
    have heq := Option.some.inj ht
    subst heq
    obtain ⟨v1, v2, v3, v4, v5, v6, v7⟩ := hv
    have hparts := WebhookBot.advance_parts st.day (st.hour * 60 + st.minute)
      (now - st.real_epoch) (by omega) (by omega)
    obtain ⟨hp1, hp2, hp3, hp4⟩ := hparts
    have hhm := hour_minute_range
      ((WebhookBot.advance_minutes_piecewise st.day (st.hour * 60 + st.minute)
        (now - st.real_epoch)).2) hp3 (by omega)
    have hdge := WebhookBot.advLoop_day_ge 200000 st.day
      ((st.hour * 60 + st.minute : ℤ) : ℚ) (now - st.real_epoch)
    rw [← hp1] at hdge
    have hry := WebhookBot.roll_year_bounds
      ((WebhookBot.advance_minutes_piecewise st.day (st.hour * 60 + st.minute)
        (now - st.real_epoch)).1) st.year (by omega)
    dsimp only
    omega

/-- Witness for C10 at a concrete calibration and instant. -/
theorem claim_C10_witness :
    TimeBot.ValidState ⟨0, 1, 1, 0, 0⟩ ∧ (0 : ℚ) ≤ 0 - 0 ∧
    (0 ≤ (0 : ℤ) ∧ (0 : ℤ) ≤ 23 ∧ 0 ≤ (0 : ℤ) ∧ (0 : ℤ) ≤ 59 ∧
     0 ≤ (0 : ℤ) ∧ (0 : ℤ) ≤ 1439 ∧ 1 ≤ (1 : ℤ) ∧ (1 : ℤ) ≤ 365) := by
  have hvT : TimeBot.ValidState ⟨0, 1, 1, 0, 0⟩ := by
    unfold TimeBot.ValidState; decide
  have hsT : TimeBot.simLoop ((0 : ℚ) - 0) ⟨0 * 60 + 0, 1, 1⟩ = ⟨0 * 60 + 0, 1, 1⟩ :=
    TimeBot.simLoop_done _ _ (by norm_num)
  have htT : TimeBot.calculate_time_snapshot (some ⟨0, 1, 1, 0, 0⟩) 0
      = some ⟨1, 1, 0, 0, 0, false⟩ :=
    (TimeBot.snapshot_eval 0 1 1 0 0 0 ⟨0, 1, 1⟩ hsT).trans (by decide)
  exact ⟨hvT, by norm_num,
    claim_C10.1 ⟨0, 1, 1, 0, 0⟩ 0 hvT (by norm_num) ⟨1, 1, 0, 0, 0, false⟩ htT⟩

/-- C2: for every valid calibration and elapsed real times
`0 ≤ e1 ≤ e2`, the absolute in-game minute count (year, day-of-year and
minute-of-day combined) derived by either implementation at `e1` is at
most the one derived at `e2`: the clock never goes backward. -/
theorem claim_C2 :
    (∀ (st : TimeBot.TimeState) (now1 now2 : ℚ), TimeBot.ValidState st →
      0 ≤ now1 - st.epoch → now1 ≤ now2 →
      ∀ t1 t2, TimeBot.calculate_time_snapshot (some st) now1 = some t1 →
        TimeBot.calculate_time_snapshot (some st) now2 = some t2 →
        TimeBot.totalSnap t1 ≤ TimeBot.totalSnap t2) ∧
    (∀ (st : WebhookBot.TimeState) (now1 now2 : ℚ), WebhookBot.ValidState st →
      0 ≤ now1 - st.real_epoch → now1 ≤ now2 →
      ∀ t1 t2, WebhookBot.calculate_time (some st) now1 = some t1 →
        WebhookBot.calculate_time (some st) now2 = some t2 →
        WebhookBot.totalInfo t1 ≤ WebhookBot.totalInfo t2) := by
  constructor
  · intro st now1 now2 hv _ h12 t1 t2 ht1 ht2
    rw [TimeBot.totalSnap_eq st now1 hv t1 ht1, TimeBot.totalSnap_eq st now2 hv t2 ht2]
    exact TimeBot.simLoop_mono (now1 - st.epoch) _ (TimeBot.validSim_of_state st hv)
      (now2 - st.epoch) (by linarith)
  · intro st now1 now2 hv _ h12 t1 t2 ht1 ht2
    rw [WebhookBot.totalInfo_eq st now1 hv t1 ht1,
        WebhookBot.totalInfo_eq st now2 hv t2 ht2]
    have hmono := WebhookBot.advLoop_mono 200000 st.day
      ((st.hour * 60 + st.minute : ℤ) : ℚ) (now1 - st.real_epoch)
      (now2 - st.real_epoch) (by linarith)
    have hf := Int.floor_le_floor hmono
    rw [WebhookBot.totalQ_floor, WebhookBot.totalQ_floor] at hf
    omega

/-- Witness for C2 at a concrete calibration and pair of instants. -/
theorem claim_C2_witness :
    TimeBot.ValidState ⟨0, 1, 1, 0, 0⟩ ∧ (0 : ℚ) ≤ 0 - 0 ∧ (0 : ℚ) ≤ 0 ∧
    TimeBot.totalSnap ⟨1, 1, 0, 0, 0, false⟩
      ≤ TimeBot.totalSnap ⟨1, 1, 0, 0, 0, false⟩ := by
  have hvT : TimeBot.ValidState ⟨0, 1, 1, 0, 0⟩ := by
    unfold TimeBot.ValidState; decide
  have hsT : TimeBot.simLoop ((0 : ℚ) - 0) ⟨0 * 60 + 0, 1, 1⟩ = ⟨0 * 60 + 0, 1, 1⟩ :=
    TimeBot.simLoop_done _ _ (by norm_num)
  have htT : TimeBot.calculate_time_snapshot (some ⟨0, 1, 1, 0, 0⟩) 0
      = some ⟨1, 1, 0, 0, 0, false⟩ :=
    (TimeBot.snapshot_eval 0 1 1 0 0 0 ⟨0, 1, 1⟩ hsT).trans (by decide)
  exact ⟨hvT, by norm_num, le_refl 0,
    claim_C2.1 ⟨0, 1, 1, 0, 0⟩ 0 0 hvT (by norm_num) (le_refl 0)
      ⟨1, 1, 0, 0, 0, false⟩ ⟨1, 1, 0, 0, 0, false⟩ htT htT⟩

/-- C3: calibrating at year 1, day 365, 23:59 and advancing real time by
exactly two in-game minutes at the night rate (2 × 4.045 s = 8.09 s),
both implementations report year 2, day 1, 00:01 — the day is
renormalized into `[1,365]` and the year increments at the 365-day
rollover with no off-by-one. -/
theorem claim_C3 :
    TimeBot.NIGHT_SPM = 4045 / 1000 ∧
    WebhookBot.NIGHT_SECONDS_PER_INGAME_MINUTE = 4045 / 1000 ∧
    ∀ T0 : ℚ,
      (TimeBot.calculate_time_snapshot (some ⟨T0, 1, 365, 23, 59⟩)
          (T0 + 2 * TimeBot.NIGHT_SPM)).map
        (fun t => (t.year, t.day, t.hour, t.minute)) = some (2, 1, 0, 1) ∧
      (WebhookBot.calculate_time (some ⟨T0, 1, 365, 23, 59⟩)
          (T0 + 2 * WebhookBot.NIGHT_SECONDS_PER_INGAME_MINUTE)).map
        (fun t => (t.year, t.day, t.hour, t.minute)) = some (2, 1, 0, 1) := by
  refine ⟨rfl, rfl, fun T0 => ⟨?_, ?_⟩⟩
  · have e : (T0 + 2 * TimeBot.NIGHT_SPM : ℚ) = T0 + 809 / 100 := by
      unfold TimeBot.NIGHT_SPM
      norm_num
    rw [e, TimeBot.tb_eval_c3 T0]
    rfl
  · have e : (T0 + 2 * WebhookBot.NIGHT_SECONDS_PER_INGAME_MINUTE : ℚ)
        = T0 + 809 / 100 := by
      unfold WebhookBot.NIGHT_SECONDS_PER_INGAME_MINUTE
      norm_num
    rw [e, WebhookBot.wb_eval_c3 T0]
    rfl

/-- C4: with day rate 4.7666667 s per in-game minute, night rate 4.045 s,
sunrise 05:30 and sunset 17:30, calibrating at year 2, day 103, 05:30 and
querying 4.7666667 real seconds later yields 05:31, day 103, year 2 with
the daytime flag set, in both implementations: the sunrise boundary minute
itself advances at the day rate. -/
theorem claim_C4 :
    TimeBot.DAY_SPM = 47666667 / 10000000 ∧
    WebhookBot.DAY_SECONDS_PER_INGAME_MINUTE = 47666667 / 10000000 ∧
    TimeBot.NIGHT_SPM = 4045 / 1000 ∧
    TimeBot.SUNRISE = 330 ∧ TimeBot.SUNSET = 1050 ∧
    WebhookBot.DAY_START_MIN = 330 ∧ WebhookBot.DAY_END_MIN = 1050 ∧
    ∀ T0 : ℚ,
      (TimeBot.calculate_time_snapshot (some ⟨T0, 2, 103, 5, 30⟩)
          (T0 + 47666667 / 10000000)).map
        (fun t => (t.year, t.day, t.hour, t.minute, t.isDay))
        = some (2, 103, 5, 31, true) ∧
      (WebhookBot.calculate_time (some ⟨T0, 2, 103, 5, 30⟩)
          (T0 + 47666667 / 10000000)).map
        (fun t => (t.year, t.day, t.hour, t.minute, t.isDay))
        = some (2, 103, 5, 31, true) := by
  refine ⟨rfl, rfl, rfl, by decide, by decide, by decide, by decide, fun T0 => ⟨?_, ?_⟩⟩
  · rw [TimeBot.tb_eval_c4 T0]
    rfl
  · rw [WebhookBot.wb_eval_c4 T0]
    rfl

/-- C1 (as amended): the webhook bot's set-time command rejects every
request with `year < 1`, `day ∉ [1,365]`, `hour ∉ [0,23]` or
`minute ∉ [0,59]`, reporting failure and leaving the previous calibration
unchanged, and replaces the calibration wholesale on every request
satisfying all of these constraints.  (The time bot's `/settime` performs
no such validation; see the counterexample.) -/
theorem claim_C1 :
    ∀ (st : Option WebhookBot.TimeState) (now : ℚ) (year day hour minute : ℤ),
      ((year < 1 ∨ day < 1 ∨ 365 < day ∨ hour < 0 ∨ 23 < hour ∨
          minute < 0 ∨ 59 < minute) →
        WebhookBot.settime_cmd st now year day hour minute = (st, false)) ∧
      ((1 ≤ year ∧ 1 ≤ day ∧ day ≤ 365 ∧ 0 ≤ hour ∧ hour ≤ 23 ∧
          0 ≤ minute ∧ minute ≤ 59) →
        WebhookBot.settime_cmd st now year day hour minute
          = (some ⟨now, year, day, hour, minute⟩, true)) := by
  intro st now year day hour minute
  constructor
  · intro h
    unfold WebhookBot.settime_cmd
    rw [if_pos h]
  · intro h
    unfold WebhookBot.settime_cmd
    rw [if_neg (by omega)]

/-- Witness for C1: a rejected and an accepted concrete request. -/
theorem claim_C1_witness :
    WebhookBot.settime_cmd (some ⟨0, 1, 1, 0, 0⟩) 5 1 999 0 0
      = (some ⟨0, 1, 1, 0, 0⟩, false) ∧
    WebhookBot.settime_cmd (some ⟨0, 1, 1, 0, 0⟩) 5 3 20 7 8
      = (some ⟨5, 3, 20, 7, 8⟩, true) :=
  ⟨(claim_C1 (some ⟨0, 1, 1, 0, 0⟩) 5 1 999 0 0).1 (by omega),
   (claim_C1 (some ⟨0, 1, 1, 0, 0⟩) 5 3 20 7 8).2 (by omega)⟩

/-- Counterexample to the original C1: the time bot's `/settime` accepts
day 999 (outside `[1,365]`), reports success, and overwrites the active
calibration with the invalid values. -/
theorem claim_C1_counterexample :
    (365 : ℤ) < 999 ∧
    (TimeBot.settime (some ⟨0, 1, 1, 0, 0⟩) 5 1 999 0 0).2 = true ∧
    (TimeBot.settime (some ⟨0, 1, 1, 0, 0⟩) 5 1 999 0 0).1
      = some ⟨5, 1, 999, 0, 0⟩ ∧
    some (⟨5, 1, 999, 0, 0⟩ : TimeBot.TimeState)
      ≠ some (⟨0, 1, 1, 0, 0⟩ : TimeBot.TimeState) := by
  refine ⟨by omega, rfl, rfl, ?_⟩
  intro h
  have hinj := Option.some.inj h
  have hd : (999 : ℤ) = 1 := congrArg TimeBot.TimeState.day hinj
  omega

/-- C7: for every int32 request id and packet type and every body byte
string, both RCON packet constructors produce
`LE32(length) ++ LE32(id) ++ LE32(type) ++ body ++ [0, 0]` where the
length field equals `4 + 4 + len(body) + 2` — the byte count of
everything after the length field itself. -/
theorem claim_C7 :
    ∀ (req_id ptype : ℤ) (body : List ℕ),
      -2147483648 ≤ req_id → req_id < 2147483648 →
      -2147483648 ≤ ptype → ptype < 2147483648 →
      (TimeBot._rcon_make_packet req_id ptype body
          = le32 (4 + 4 + (body.length : ℤ) + 2) ++ le32 req_id ++ le32 ptype
            ++ body ++ [0, 0] ∧
        (TimeBot._rcon_make_packet req_id ptype body).length
          = 4 + (4 + 4 + body.length + 2)) ∧
      (WebhookBot._rcon_packet req_id ptype body
          = le32 (4 + 4 + (body.length : ℤ) + 2) ++ le32 req_id ++ le32 ptype
            ++ body ++ [0, 0] ∧
        (WebhookBot._rcon_packet req_id ptype body).length
          = 4 + (4 + 4 + body.length + 2)) := by
  intro req_id ptype body _ _ _ _
  have hwb : WebhookBot._rcon_packet req_id ptype body
      = le32 (4 + 4 + (body.length : ℤ) + 2) ++ le32 req_id ++ le32 ptype
        ++ body ++ [0, 0] := by
    unfold WebhookBot._rcon_packet
    simp [List.append_assoc]
  have hlen : (le32 req_id ++ le32 ptype ++ (body ++ [0]) ++ [0]).length
      = 10 + body.length := by
    simp [le32]
    omega
  have htb : TimeBot._rcon_make_packet req_id ptype body
      = le32 (4 + 4 + (body.length : ℤ) + 2) ++ le32 req_id ++ le32 ptype
        ++ body ++ [0, 0] := by
    unfold TimeBot._rcon_make_packet
    show le32 (((le32 req_id ++ le32 ptype ++ (body ++ [0]) ++ [0]).length : ℕ) : ℤ)
        ++ (le32 req_id ++ le32 ptype ++ (body ++ [0]) ++ [0]) = _
    rw [hlen]
    have hc : (((10 + body.length : ℕ) : ℕ) : ℤ) = 4 + 4 + (body.length : ℤ) + 2 := by
      push_cast
      ring
    rw [hc]
    simp [List.append_assoc]
  refine ⟨⟨htb, ?_⟩, hwb, ?_⟩
  · rw [htb]
    simp [le32]
    omega
  · rw [hwb]
    simp [le32]
    omega

/-- Witness for C7 at request id 1, type 3, body "ab". -/
theorem claim_C7_witness :
    (-2147483648 : ℤ) ≤ 1 ∧ (1 : ℤ) < 2147483648 ∧
    (-2147483648 : ℤ) ≤ 3 ∧ (3 : ℤ) < 2147483648 ∧
    ((TimeBot._rcon_make_packet 1 3 [97, 98]
        = le32 (4 + 4 + (([97, 98] : List ℕ).length : ℤ) + 2)
          ++ le32 1 ++ le32 3 ++ [97, 98] ++ [0, 0] ∧
      (TimeBot._rcon_make_packet 1 3 [97, 98]).length
        = 4 + (4 + 4 + ([97, 98] : List ℕ).length + 2)) ∧
     (WebhookBot._rcon_packet 1 3 [97, 98]
        = le32 (4 + 4 + (([97, 98] : List ℕ).length : ℤ) + 2)
          ++ le32 1 ++ le32 3 ++ [97, 98] ++ [0, 0] ∧
      (WebhookBot._rcon_packet 1 3 [97, 98]).length
        = 4 + (4 + 4 + ([97, 98] : List ℕ).length + 2))) :=
  ⟨by decide, by decide, by decide, by decide,
   claim_C7 1 3 [97, 98] (by decide) (by decide) (by decide) (by decide)⟩

namespace WebhookBot

/-- The auth loop skips packets that are not of type `AUTH_RESP` and
fails on an auth response echoing id `-1`. -/
theorem authLoop_skips (pre : List Packet) (fuel : ℕ) (hf : pre.length < fuel)
    (hne : ∀ p ∈ pre, p.ptype ≠ RCON_TYPE_AUTH_RESP) (q : Packet)
    (post : List Packet) (hq : q.ptype = RCON_TYPE_AUTH_RESP) (hid : q.id = -1) :
    authLoop fuel (pre ++ q :: post) = .authFailed := by
  induction pre generalizing fuel with
  | nil =>
    obtain ⟨k, rfl⟩ : ∃ k, fuel = k + 1 := ⟨fuel - 1, by omega⟩
    show authLoop (k + 1) (q :: post) = .authFailed
    simp [authLoop, hq, hid]
  | cons p pre ih =>
    obtain ⟨k, rfl⟩ : ∃ k, fuel = k + 1 := ⟨fuel - 1, by omega⟩
    have hp : p.ptype ≠ RCON_TYPE_AUTH_RESP := hne p (by simp)
    show authLoop (k + 1) (p :: (pre ++ q :: post)) = .authFailed
    have hstep : authLoop (k + 1) (p :: (pre ++ q :: post))
        = authLoop k (pre ++ q :: post) := by
      simp [authLoop, hp]
    rw [hstep]
    have hf' : pre.length < k := by
      simp only [List.length_cons] at hf
      omega
    exact ih k hf' (fun r hr => hne r (by simp [hr]))

end WebhookBot

/-- C6 (as amended, for the webhook bot's RCON client): whenever the
server's authentication reply (type `AUTH_RESP = 2`) echoes request id
`-1` — after at most four preceding packets of other types, such as empty
`RESPONSE_VALUE` frames, which are skipped rather than misread — the
command fails with `authFailed` and only the auth packet was ever sent.
(The time bot's RCON client never inspects the echoed id; see the
counterexample.) -/
theorem claim_C6 :
    ∀ (password command : List ℕ) (pre : List WebhookBot.Packet)
      (b : List ℕ) (post : List WebhookBot.Packet),
      pre.length ≤ 4 →
      (∀ p ∈ pre, p.ptype ≠ WebhookBot.RCON_TYPE_AUTH_RESP) →
      WebhookBot.rcon_command password command
          (pre ++ ⟨-1, WebhookBot.RCON_TYPE_AUTH_RESP, b⟩ :: post)
        = ⟨[WebhookBot._rcon_packet 1234 WebhookBot.RCON_TYPE_AUTH password],
           .authFailed⟩ := by
  intro password command pre b post hlen hne
  have ha : WebhookBot.authLoop 5
      (pre ++ (⟨-1, WebhookBot.RCON_TYPE_AUTH_RESP, b⟩ : WebhookBot.Packet) :: post)
      = .authFailed :=
    WebhookBot.authLoop_skips pre 5 (by omega) hne _ post rfl rfl
  unfold WebhookBot.rcon_command
  rw [ha]

/-- Witness for C6: one empty response frame precedes the `-1` auth
reply. -/
theorem claim_C6_witness :
    ([⟨5678, 0, []⟩] : List WebhookBot.Packet).length ≤ 4 ∧
    (∀ p ∈ ([⟨5678, 0, []⟩] : List WebhookBot.Packet),
      p.ptype ≠ WebhookBot.RCON_TYPE_AUTH_RESP) ∧
    WebhookBot.rcon_command [112] [99]
        ([⟨5678, 0, []⟩] ++ ⟨-1, WebhookBot.RCON_TYPE_AUTH_RESP, []⟩ :: [])
      = ⟨[WebhookBot._rcon_packet 1234 WebhookBot.RCON_TYPE_AUTH [112]],
         .authFailed⟩ :=
  ⟨by decide, by decide,
   claim_C6 [112] [99] [⟨5678, 0, []⟩] [] [] (by decide) (by decide)⟩

/-- Counterexample to the original C6: the time bot's RCON client
receives an authentication reply that is a well-formed `AUTH_RESPONSE`
packet echoing id `-1` (14 bytes: length 10, id `-1`, type 2, empty body,
two nulls), yet — checking only that at least 12 bytes arrived — it
treats authentication as successful and sends the command packet as
well. -/
theorem claim_C6_counterexample :
    (le32 10 ++ le32 (-1) ++ le32 2 ++ [0, 0]).length = 14 ∧
    from_bytes4 (((le32 10 ++ le32 (-1) ++ le32 2 ++ [0, 0]).drop 4).take 4)
      = -1 ∧
    from_bytes4 (((le32 10 ++ le32 (-1) ++ le32 2 ++ [0, 0]).drop 8).take 4)
      = 2 ∧
    (TimeBot.rcon_command_sends [112] [99]
      (le32 10 ++ le32 (-1) ++ le32 2 ++ [0, 0])).2 = true ∧
    (TimeBot.rcon_command_sends [112] [99]
      (le32 10 ++ le32 (-1) ++ le32 2 ++ [0, 0])).1.length = 2 := by
  refine ⟨by decide, by decide, by decide, ?_, ?_⟩ <;>
    · unfold TimeBot.rcon_command_sends
      decide

/-- On an event list with no decode errors, replacement decoding and
plain extraction agree. -/
theorem map_getD_eq_filterMap (l : List (Option ℕ)) (h : none ∉ l) :
    l.map (fun e => e.getD 65533) = l.filterMap id := by
  induction l with
  | nil => rfl
  | cons a t ih =>
    cases a with
    | none => exact absurd (by simp) h
    | some c =>
      have ht : none ∉ t := fun hm => h (List.mem_cons_of_mem _ hm)
      simp [ih ht]

namespace TimeBot

theorem parseLoop_short (data : List ℕ) (h : data.length < 4) :
    parseLoop data = [] := by
  rw [parseLoop, dif_pos h]

theorem parseLoop_step (data : List ℕ) (h : ¬ data.length < 4)
    (h2 : ¬ (from_bytes4 (data.take 4) < 10 ∨
      ((data.drop 4).length : ℤ) < from_bytes4 (data.take 4))) :
    parseLoop data
      = (if decodeIgnore ((((data.drop 4).take
            (from_bytes4 (data.take 4)).toNat).drop 8).dropLast.dropLast) ≠ []
         then [decodeIgnore ((((data.drop 4).take
            (from_bytes4 (data.take 4)).toNat).drop 8).dropLast.dropLast)]
         else [])
        ++ parseLoop ((data.drop 4).drop (from_bytes4 (data.take 4)).toNat) := by
  rw [parseLoop, dif_neg h]
  show (if from_bytes4 (data.take 4) < 10 ∨
          ((data.drop 4).length : ℤ) < from_bytes4 (data.take 4) then []
        else
          (if decodeIgnore ((((data.drop 4).take
                (from_bytes4 (data.take 4)).toNat).drop 8).dropLast.dropLast) ≠ []
           then [decodeIgnore ((((data.drop 4).take
                (from_bytes4 (data.take 4)).toNat).drop 8).dropLast.dropLast)]
           else [])
            ++ parseLoop ((data.drop 4).drop (from_bytes4 (data.take 4)).toNat)) = _
  rw [if_neg h2]

end TimeBot

/-- C8 (as amended, for the webhook bot's RCON client): response bodies
are decoded with replacement semantics, which is total: whenever strict
UTF-8 decoding succeeds the decoded text is the same, whenever strict
decoding would raise the output contains the substitute character
U+FFFD (65533), and the output always has exactly one character per
decoder event — nothing is silently dropped.  (The time bot decodes with
`errors="ignore"`, which does drop undecodable bytes; see the
counterexample.) -/
theorem claim_C8 :
    ∀ bs : List ℕ,
      (∀ out, decodeStrict bs = some out → WebhookBot.rcon_recv_text bs = out) ∧
      (decodeStrict bs = none → (65533 : ℕ) ∈ WebhookBot.rcon_recv_text bs) ∧
      (WebhookBot.rcon_recv_text bs).length = (utf8Events none bs).length := by
  intro bs
  refine ⟨?_, ?_, ?_⟩
  · intro out hout
    by_cases hc : none ∈ utf8Events none bs
    · unfold decodeStrict at hout
      rw [if_pos hc] at hout
      exact absurd hout (by simp)
    · unfold decodeStrict at hout
      rw [if_neg hc] at hout
      have h2 := Option.some.inj hout
      show decodeReplace bs = out
      unfold decodeReplace
      rw [map_getD_eq_filterMap (utf8Events none bs) hc, h2]
  · intro hnone
    by_cases hc : none ∈ utf8Events none bs
    · exact List.mem_map.mpr ⟨none, hc, rfl⟩
    · unfold decodeStrict at hnone
      rw [if_neg hc] at hnone
      exact absurd hnone (by simp)
  · show (decodeReplace bs).length = _
    unfold decodeReplace
    exact List.length_map _ _

/-- Witness for C8: an undecodable and a cleanly decodable body. -/
theorem claim_C8_witness :
    decodeStrict [104, 255, 105] = none ∧
    (65533 : ℕ) ∈ WebhookBot.rcon_recv_text [104, 255, 105] ∧
    decodeStrict [104, 105] = some [104, 105] ∧
    WebhookBot.rcon_recv_text [104, 105] = [104, 105] :=
  ⟨by decide, (claim_C8 [104, 255, 105]).2.1 (by decide),
   by decide, (claim_C8 [104, 105]).1 [104, 105] (by decide)⟩

/-- Counterexample to the original C8: the time bot decodes response
bodies with `errors="ignore"`.  A well-formed response packet whose body
is the single undecodable byte `0xFF` contributes no text at all — the
byte is silently dropped (replacement decoding would yield U+FFFD), and
the packet-parsing loop returns no parts for the whole stream. -/
theorem claim_C8_counterexample :
    decodeIgnore [255] = [] ∧
    decodeReplace [255] = [65533] ∧
    TimeBot.parseLoop [11, 0, 0, 0, 2, 0, 0, 0, 0, 0, 0, 0, 255, 0, 0] = [] := by
  refine ⟨by decide, by decide, ?_⟩
  rw [TimeBot.parseLoop_step [11, 0, 0, 0, 2, 0, 0, 0, 0, 0, 0, 0, 255, 0, 0]
    (by decide) (by decide)]
  have hrest : (([11, 0, 0, 0, 2, 0, 0, 0, 0, 0, 0, 0, 255, 0, 0] : List ℕ).drop 4).drop
      (from_bytes4 (([11, 0, 0, 0, 2, 0, 0, 0, 0, 0, 0, 0, 255, 0, 0] : List ℕ).take 4)).toNat
      = [] := by decide
  rw [hrest, TimeBot.parseLoop_short [] (by decide)]
  decide

/-- C5 (as amended): for every valid calibration and non-negative elapsed
real time that the piecewise loop consumes fully within its 200000
iterations, the absolute in-game minute index of the minute-by-minute
simulation is at least that of the boundary-jump piecewise integration
and exceeds it by at most one minute: the two implementations agree up to
the sub-minute fraction that the simulation loop rounds up and the
piecewise loop truncates.  Exact equality of the derived
(year, dayOfYear, hour, minute) does not hold (see the
counterexample). -/
theorem claim_C5 :
    ∀ (ep : ℚ) (y d h mi : ℤ) (now : ℚ),
      TimeBot.ValidState ⟨ep, y, d, h, mi⟩ →
      0 ≤ now - ep →
      (WebhookBot.advLoop 200000 d ((h * 60 + mi : ℤ) : ℚ) (now - ep)).2.2 ≤ 0 →
      ∀ t i,
        TimeBot.calculate_time_snapshot (some ⟨ep, y, d, h, mi⟩) now = some t →
        WebhookBot.calculate_time (some ⟨ep, y, d, h, mi⟩) now = some i →
        WebhookBot.totalInfo i ≤ TimeBot.totalSnap t ∧
        TimeBot.totalSnap t ≤ WebhookBot.totalInfo i + 1 := by
  intro ep y d h mi now hv he hfull t i ht hi
  have b1 : 1 ≤ y := hv.1
  have b2 : 1 ≤ d := hv.2.1
  have b3 : d ≤ 365 := hv.2.2.1
  have b4 : 0 ≤ h := hv.2.2.2.1
  have b5 : h ≤ 23 := hv.2.2.2.2.1
  have b6 : 0 ≤ mi := hv.2.2.2.2.2.1
  have b7 : mi ≤ 59 := hv.2.2.2.2.2.2
  -- TimeBot side: step-count characterization
  have htbc : TimeBot.totalSnap t
      = TimeBot.totalMin (TimeBot.simLoop (now - ep) ⟨h * 60 + mi, d, y⟩) :=
    TimeBot.totalSnap_eq ⟨ep, y, d, h, mi⟩ now hv t ht
  have hvs : TimeBot.ValidSim ⟨h * 60 + mi, d, y⟩ :=
    TimeBot.validSim_of_state ⟨ep, y, d, h, mi⟩ hv
  have htb2 : TimeBot.totalSnap t
      = TimeBot.totalMin ⟨h * 60 + mi, d, y⟩
        + nSteps (now - ep) (TimeBot.totalMin ⟨h * 60 + mi, d, y⟩) :=
    htbc.trans (TimeBot.simLoop_total_eq (now - ep) ⟨h * 60 + mi, d, y⟩ hvs)
  -- WebhookBot side: whole-minute advance characterization
  have hvW : WebhookBot.ValidState ⟨ep, y, d, h, mi⟩ := by
    exact ⟨b1, b2, b3, b4, b5, b6, b7⟩
  have hwb2 : WebhookBot.totalInfo i
      = ((y - 1) * 365
          + ((WebhookBot.advLoop 200000 d ((h * 60 + mi : ℤ) : ℚ) (now - ep)).1
              - 1)) * 1440
        + ⌊(WebhookBot.advLoop 200000 d ((h * 60 + mi : ℤ) : ℚ) (now - ep)).2.1⌋ :=
    WebhookBot.totalInfo_eq ⟨ep, y, d, h, mi⟩ now hvW i hi
  have hp := WebhookBot.advance_parts d (h * 60 + mi) (now - ep) (by omega) (by omega)
  have hadv1 : (WebhookBot.advance_minutes_piecewise d (h * 60 + mi) (now - ep)).1
      = (WebhookBot.advLoop 200000 d ((h * 60 + mi : ℤ) : ℚ) (now - ep)).1 := hp.1
  have hadv2 : (WebhookBot.advance_minutes_piecewise d (h * 60 + mi) (now - ep)).2
      = ⌊(WebhookBot.advLoop 200000 d ((h * 60 + mi : ℤ) : ℚ) (now - ep)).2.1⌋ :=
    hp.2.1
  have hinfo : WebhookBot.totalInfo i
      = ((y - 1) * 365
          + ((WebhookBot.advance_minutes_piecewise d (h * 60 + mi) (now - ep)).1
              - 1)) * 1440
        + (WebhookBot.advance_minutes_piecewise d (h * 60 + mi) (now - ep)).2 := by
    rw [hwb2, ← hadv1, ← hadv2]
  obtain ⟨M, hMeq, hMl, hMu⟩ :=
    WebhookBot.advance_exact d (h * 60 + mi) (now - ep) (by omega) (by omega) he hfull
  -- transfer the rate-sum bracket from the day-relative to the absolute origin
  have hTe : TimeBot.totalMin ⟨h * 60 + mi, d, y⟩
      = (d - 1) * 1440 + (h * 60 + mi) + 1440 * (365 * (y - 1)) := by
    rw [TimeBot.totalMin_mk]
    ring
  have hsum : ∀ n : ℕ,
      rateSum (TimeBot.totalMin ⟨h * 60 + mi, d, y⟩) n
        = rateSum ((d - 1) * 1440 + (h * 60 + mi)) n := by
    intro n
    rw [hTe]
    exact rateSum_period ((d - 1) * 1440 + (h * 60 + mi)) (365 * (y - 1)) n
  have hsand := steps_sandwich (TimeBot.totalMin ⟨h * 60 + mi, d, y⟩) (now - ep) M
    (by rw [hsum]; exact hMl) (by rw [hsum]; exact hMu)
  have hTm : TimeBot.totalMin ⟨h * 60 + mi, d, y⟩
      = ((y - 1) * 365 + (d - 1)) * 1440 + (h * 60 + mi) :=
    TimeBot.totalMin_mk _ _ _
  omega

/-- Witness for C5: one whole night minute of elapsed real time from the
origin calibration; both clocks advance exactly one minute. -/
theorem claim_C5_witness :
    TimeBot.ValidState ⟨0, 1, 1, 0, 0⟩ ∧
    (0 : ℚ) ≤ 809 / 200 - 0 ∧
    (WebhookBot.advLoop 200000 1 ((0 * 60 + 0 : ℤ) : ℚ) (809 / 200 - 0)).2.2 ≤ 0 ∧
    (WebhookBot.totalInfo ⟨1, 1, 0, 1, 1, false⟩
        ≤ TimeBot.totalSnap ⟨1, 1, 0, 1, 1, false⟩ ∧
      TimeBot.totalSnap ⟨1, 1, 0, 1, 1, false⟩
        ≤ WebhookBot.totalInfo ⟨1, 1, 0, 1, 1, false⟩ + 1) := by
  have hv : TimeBot.ValidState ⟨0, 1, 1, 0, 0⟩ := by
    unfold TimeBot.ValidState; decide
  have e0 : (809 / 200 : ℚ) - 0 = 809 / 200 := by norm_num
  have hA2 : WebhookBot.advLoop 200000 1 ((0 : ℤ) : ℚ) (809 / 200) = (1, 1, 0) := by
    have hσ : WebhookBot.seconds_per_minute 0
        = WebhookBot.NIGHT_SECONDS_PER_INGAME_MINUTE :=
      WebhookBot.spm_night 0 (by omega)
    have hB : WebhookBot.next_boundary_total_minutes 1 ((0 : ℤ) : ℚ)
        = (((1 - 1) * 1440 + 330 : ℤ) : ℚ) :=
      WebhookBot.nb_eval_night_early 1 0 (by omega) (by omega)
    have hlt : (809 / 200 : ℚ) <
        (((1 - 1) * 1440 + 330 - ((1 - 1) * 1440 + 0) : ℤ) : ℚ)
          * WebhookBot.NIGHT_SECONDS_PER_INGAME_MINUTE := by
      unfold WebhookBot.NIGHT_SECONDS_PER_INGAME_MINUTE
      push_cast
      norm_num
    have hA := WebhookBot.advLoop_one_partial 1 0 (809 / 200) (by omega) (by omega)
      (by norm_num) ((1 - 1) * 1440 + 330) hB (by omega)
      WebhookBot.NIGHT_SECONDS_PER_INGAME_MINUTE hσ hlt
    have hnorm : WebhookBot.normalize 1
        (((0 : ℤ) : ℚ) + 809 / 200 / WebhookBot.NIGHT_SECONDS_PER_INGAME_MINUTE)
        = (1, 1) := by
      have harg : ((0 : ℤ) : ℚ)
          + 809 / 200 / WebhookBot.NIGHT_SECONDS_PER_INGAME_MINUTE = 1 := by
        unfold WebhookBot.NIGHT_SECONDS_PER_INGAME_MINUTE
        push_cast
        norm_num
      rw [harg]
      exact WebhookBot.normalize_lt 1 1 (by norm_num)
    rw [hA, hnorm]
  have hfull : (WebhookBot.advLoop 200000 1 ((0 * 60 + 0 : ℤ) : ℚ)
      (809 / 200 - 0)).2.2 ≤ 0 := by
    rw [e0]
    show (WebhookBot.advLoop 200000 1 ((0 : ℤ) : ℚ) (809 / 200)).2.2 ≤ 0
    rw [hA2]
  have hs : TimeBot.simLoop (809 / 200 - 0) ⟨0 * 60 + 0, 1, 1⟩ = ⟨1, 1, 1⟩ := by
    rw [e0]
    rw [TimeBot.simLoop_step_mid (809 / 200) ⟨0 * 60 + 0, 1, 1⟩
      (by norm_num) (by decide)]
    show TimeBot.simLoop ((809 / 200 : ℚ) - TimeBot.spm 0) ⟨1, 1, 1⟩ = ⟨1, 1, 1⟩
    rw [TimeBot.spmT_night 0 (by omega)]
    have e1 : (809 / 200 : ℚ) - TimeBot.NIGHT_SPM = 0 := by
      unfold TimeBot.NIGHT_SPM
      norm_num
    rw [e1]
    exact TimeBot.simLoop_done _ _ le_rfl
  have ht : TimeBot.calculate_time_snapshot (some ⟨0, 1, 1, 0, 0⟩) (809 / 200)
      = some ⟨1, 1, 0, 1, 1, false⟩ :=
    (TimeBot.snapshot_eval 0 1 1 0 0 (809 / 200) ⟨1, 1, 1⟩ hs).trans (by decide)
  have hadv : WebhookBot.advance_minutes_piecewise 1 (0 * 60 + 0) (809 / 200 - 0)
      = (1, 1) := by
    rw [e0]
    exact WebhookBot.advance_eval 1 (0 * 60 + 0) (809 / 200) (1, 1, 0) 1 hA2
      WebhookBot.pyInt_one_mod
  have hry : WebhookBot.roll_year 1 1 = (1, 1) :=
    WebhookBot.roll_year_le 1 1 (by omega)
  have hi : WebhookBot.calculate_time (some ⟨0, 1, 1, 0, 0⟩) (809 / 200)
      = some ⟨1, 1, 0, 1, 1, false⟩ :=
    (WebhookBot.calculate_time_eval 0 1 1 0 0 (809 / 200) (1, 1) (1, 1)
      hadv hry).trans (by decide)
  exact ⟨hv, by norm_num, hfull,
    claim_C5 0 1 1 0 0 (809 / 200) hv (by norm_num) hfull
      ⟨1, 1, 0, 1, 1, false⟩ ⟨1, 1, 0, 1, 1, false⟩ ht hi⟩

/-- Counterexample to the original C5 (exact equivalence): from the
origin calibration, one real second elapsed.  The minute-by-minute
simulation consumes a whole night minute it cannot afford and reports
minute 1; the piecewise integration advances fractionally and truncates
back to minute 0 — the derived (year, dayOfYear, hour, minute) differ. -/
theorem claim_C5_counterexample :
    TimeBot.calculate_time_snapshot (some ⟨0, 1, 1, 0, 0⟩) 1
      = some ⟨1, 1, 0, 1, 1, false⟩ ∧
    WebhookBot.calculate_time (some ⟨0, 1, 1, 0, 0⟩) 1
      = some ⟨1, 1, 0, 0, 0, false⟩ ∧
    (some (⟨1, 1, 0, 1, 1, false⟩ : TimeBot.Snapshot)).map
        (fun t => (t.year, t.day, t.hour, t.minute))
      ≠ (some (⟨1, 1, 0, 0, 0, false⟩ : WebhookBot.TimeInfo)).map
        (fun i => (i.year, i.day, i.hour, i.minute)) := by
  have e0 : (1 : ℚ) - 0 = 1 := by norm_num
  refine ⟨?_, ?_, by decide⟩
  · have hs : TimeBot.simLoop ((1 : ℚ) - 0) ⟨0 * 60 + 0, 1, 1⟩ = ⟨1, 1, 1⟩ := by
      rw [e0]
      rw [TimeBot.simLoop_step_mid 1 ⟨0 * 60 + 0, 1, 1⟩ (by norm_num) (by decide)]
      show TimeBot.simLoop ((1 : ℚ) - TimeBot.spm 0) ⟨1, 1, 1⟩ = ⟨1, 1, 1⟩
      rw [TimeBot.spmT_night 0 (by omega)]
      exact TimeBot.simLoop_done _ _ (by unfold TimeBot.NIGHT_SPM; norm_num)
    exact (TimeBot.snapshot_eval 0 1 1 0 0 1 ⟨1, 1, 1⟩ hs).trans (by decide)
  · have hσ : WebhookBot.seconds_per_minute 0
        = WebhookBot.NIGHT_SECONDS_PER_INGAME_MINUTE :=
      WebhookBot.spm_night 0 (by omega)
    have hB : WebhookBot.next_boundary_total_minutes 1 ((0 : ℤ) : ℚ)
        = (((1 - 1) * 1440 + 330 : ℤ) : ℚ) :=
      WebhookBot.nb_eval_night_early 1 0 (by omega) (by omega)
    have hlt : (1 : ℚ) <
        (((1 - 1) * 1440 + 330 - ((1 - 1) * 1440 + 0) : ℤ) : ℚ)
          * WebhookBot.NIGHT_SECONDS_PER_INGAME_MINUTE := by
      unfold WebhookBot.NIGHT_SECONDS_PER_INGAME_MINUTE
      push_cast
      norm_num
    have hA := WebhookBot.advLoop_one_partial 1 0 1 (by omega) (by omega)
      (by norm_num) ((1 - 1) * 1440 + 330) hB (by omega)
      WebhookBot.NIGHT_SECONDS_PER_INGAME_MINUTE hσ hlt
    have hnorm : WebhookBot.normalize 1
        (((0 : ℤ) : ℚ) + 1 / WebhookBot.NIGHT_SECONDS_PER_INGAME_MINUTE)
        = (1, 200 / 809) := by
      have harg : ((0 : ℤ) : ℚ)
          + 1 / WebhookBot.NIGHT_SECONDS_PER_INGAME_MINUTE = 200 / 809 := by
        unfold WebhookBot.NIGHT_SECONDS_PER_INGAME_MINUTE
        push_cast
        norm_num
      rw [harg]
      exact WebhookBot.normalize_lt 1 (200 / 809) (by norm_num)
    have hA2 : WebhookBot.advLoop 200000 1 ((0 : ℤ) : ℚ) 1 = (1, 200 / 809, 0) := by
      rw [hA, hnorm]
    have hfl : ⌊(200 / 809 : ℚ)⌋ = 0 := by
      rw [Int.floor_eq_zero_iff]
      exact Set.mem_Ico.mpr ⟨by norm_num, by norm_num⟩
    have hm : pyInt (200 / 809 : ℚ) % 1440 = 0 := by
      unfold pyInt
      rw [if_pos (by norm_num : (0 : ℚ) ≤ 200 / 809), hfl]
      decide
    have hadv : WebhookBot.advance_minutes_piecewise 1 (0 * 60 + 0) ((1 : ℚ) - 0)
        = (1, 0) := by
      rw [e0]
      exact WebhookBot.advance_eval 1 (0 * 60 + 0) 1 (1, 200 / 809, 0) 0 hA2 hm
    have hry : WebhookBot.roll_year 1 1 = (1, 1) :=
      WebhookBot.roll_year_le 1 1 (by omega)
    exact (WebhookBot.calculate_time_eval 0 1 1 0 0 1 (1, 0) (1, 1)
      hadv hry).trans (by decide)

end Solunaris
